import Mathlib

/-!
Verification of the `assume-role` CLI tool (src/main.rs) against its
natural-language specification.

The development shallowly embeds `async_main` from src/main.rs: external
collaborators (the IAM directory lookup, the file system, the YAML front end,
the STS trust service, the smithy date-time formatter, the environment, and
the child process) are supplied as a `World` of oracle functions, and the
run's observable external calls are recorded in an event trace.  Machine
integers are modelled as `Int`/`Nat`; floating-point YAML numbers are outside
the model (the value tree carries integers only).
-/

namespace AssumeRole

/-- Generic value tree, modelling a `serde_yaml::Value` as produced by
parsing a policy document (floating-point numbers are not modelled;
mapping keys may be arbitrary values, as in YAML). -/
inductive Value where
  | null : Value
  | bool (b : Bool) : Value
  | int (n : Int) : Value
  | str (s : List Char) : Value
  | arr (xs : List Value) : Value
  | map (entries : List (Value × Value)) : Value

/-- Decimal digit to its character. -/
def digitChar (d : Nat) : Char := Char.ofNat (48 + d)

/-- Lowercase hex digit character, as used by serde_json's `\u00XX` escapes. -/
def hexDigitChar (d : Nat) : Char :=
  if d < 10 then Char.ofNat (48 + d) else Char.ofNat (87 + d)

/-- Numeric value of a hex digit character (JSON `\uXXXX` escapes accept
both cases). -/
def hexVal (c : Char) : Option Nat :=
  if 48 ≤ c.toNat ∧ c.toNat ≤ 57 then some (c.toNat - 48)
  else if 97 ≤ c.toNat ∧ c.toNat ≤ 102 then some (c.toNat - 87)
  else if 65 ≤ c.toNat ∧ c.toNat ≤ 70 then some (c.toNat - 55)
  else none

/-- Is the character an ASCII decimal digit. -/
def isDigitCh (c : Char) : Bool := 48 ≤ c.toNat && c.toNat ≤ 57

/-- Does the character list start with a decimal digit. -/
def digHead : List Char → Bool
  | [] => false
  | c :: _ => isDigitCh c

/-- Decimal digits of a natural number, most significant first. -/
def natChars (n : Nat) : List Char :=
  if n = 0 then ['0'] else (Nat.digits 10 n).reverse.map digitChar

/-- Decimal rendering of an integer, as Rust's integer `Display`. -/
def intChars (n : Int) : List Char :=
  if n < 0 then '-' :: natChars n.natAbs else natChars n.natAbs

/-- JSON escape of a single character, following serde_json: `"` and `\`
are backslash-escaped, the five named control escapes are used where they
exist, all other control characters become `\u00XX` (lowercase hex), and
every other character is passed through. -/
def escChar (c : Char) : List Char :=
  if c.toNat = 34 then ['\\', '"']
  else if c.toNat = 92 then ['\\', '\\']
  else if c.toNat = 8 then ['\\', 'b']
  else if c.toNat = 9 then ['\\', 't']
  else if c.toNat = 10 then ['\\', 'n']
  else if c.toNat = 12 then ['\\', 'f']
  else if c.toNat = 13 then ['\\', 'r']
  else if c.toNat < 32 then
    ['\\', 'u', '0', '0', hexDigitChar (c.toNat / 16), hexDigitChar (c.toNat % 16)]
  else [c]

/-- JSON escape of a character sequence. -/
def escape : List Char → List Char
  | [] => []
  | c :: cs => escChar c ++ escape cs

/-- JSON string literal (with surrounding quotes) for a character sequence. -/
def strChars (s : List Char) : List Char := '"' :: (escape s ++ ['"'])

/-- Join serialized fragments with commas (no trailing separator). -/
def joinComma : List (List Char) → List Char
  | [] => []
  | [x] => x
  | x :: xs => x ++ (',' :: joinComma xs)

/-- Serialization of a value used as a JSON object key, following
serde_json's map-key serializer: string keys are serialized as JSON strings,
integer and boolean keys are rendered quoted, and any other key kind is an
error ("key must be a string"). -/
def serKey : Value → Option (List Char)
  | .str s => some (strChars s)
  | .int n => some ('"' :: (intChars n ++ ['"']))
  | .bool true => some ('"' :: ('t' :: 'r' :: 'u' :: 'e' :: ['"']))
  | .bool false => some ('"' :: ('f' :: 'a' :: 'l' :: 's' :: 'e' :: ['"']))
  | _ => none

mutual

/-- JSON text produced by `serde_json::to_string` for a value tree
(`None` models a serialization error). -/
def serVal : Value → Option (List Char)
  | .null => some ('n' :: 'u' :: 'l' :: ['l'])
  | .bool true => some ('t' :: 'r' :: 'u' :: ['e'])
  | .bool false => some ('f' :: 'a' :: 'l' :: 's' :: ['e'])
  | .int n => some (intChars n)
  | .str s => some (strChars s)
  | .arr xs =>
    match serList xs with
    | none => none
    | some parts => some ('[' :: (joinComma parts ++ [']']))
  | .map es =>
    match serMembers es with
    | none => none
    | some parts => some ('{' :: (joinComma parts ++ ['}']))

/-- Serialize each element of an array. -/
def serList : List Value → Option (List (List Char))
  | [] => some []
  | v :: vs =>
    match serVal v with
    | none => none
    | some c =>
      match serList vs with
      | none => none
      | some cs => some (c :: cs)

/-- Serialize each `key:value` member of an object. -/
def serMembers : List (Value × Value) → Option (List (List Char))
  | [] => some []
  | (k, v) :: es =>
    match serKey k with
    | none => none
    | some kc =>
      match serVal v with
      | none => none
      | some vc =>
        match serMembers es with
        | none => none
        | some rest => some ((kc ++ (':' :: vc)) :: rest)

end

mutual

/-- Every mapping key occurring anywhere in the tree is a string. -/
def strKeysV : Value → Bool
  | .null => true
  | .bool _ => true
  | .int _ => true
  | .str _ => true
  | .arr xs => strKeysL xs
  | .map es => strKeysM es

/-- `strKeysV` on every element of a list. -/
def strKeysL : List Value → Bool
  | [] => true
  | v :: vs => strKeysV v && strKeysL vs

/-- Keys are string values and `strKeysV` holds of every member value. -/
def strKeysM : List (Value × Value) → Bool
  | [] => true
  | (k, v) :: es =>
    (match k with
     | .str _ => true
     | _ => false) && (strKeysV v && strKeysM es)

end

/-- Split the longest leading run of decimal digits off a character list. -/
def takeDigits : List Char → (List Char × List Char)
  | [] => ([], [])
  | c :: cs =>
    if isDigitCh c then
      let p := takeDigits cs
      (c :: p.1, p.2)
    else ([], c :: cs)

/-- Value of a most-significant-first decimal digit string. -/
def digitsVal (ds : List Char) : Nat :=
  ds.foldl (fun a c => a * 10 + (c.toNat - 48)) 0

/-- Parse a nonempty run of decimal digits as a natural number. -/
def parseNat (cs : List Char) : Option (Nat × List Char) :=
  match takeDigits cs with
  | ([], _) => none
  | (ds, rest) => some (digitsVal ds, rest)

/-- Parse the body of a JSON string literal (after the opening quote),
unescaping as a JSON parser does, up to and consuming the closing quote;
returns the decoded characters and the remaining input. -/
def parseString : List Char → Option (List Char × List Char)
  | [] => none
  | c :: rest =>
    if c.toNat = 34 then some ([], rest)
    else if c.toNat = 92 then
      match rest with
      | [] => none
      | e :: r =>
        if e.toNat = 34 then (parseString r).map (fun p => ('"' :: p.1, p.2))
        else if e.toNat = 92 then (parseString r).map (fun p => ('\\' :: p.1, p.2))
        else if e.toNat = 47 then (parseString r).map (fun p => ('/' :: p.1, p.2))
        else if e = 'b' then (parseString r).map (fun p => (Char.ofNat 8 :: p.1, p.2))
        else if e = 'f' then (parseString r).map (fun p => (Char.ofNat 12 :: p.1, p.2))
        else if e = 'n' then (parseString r).map (fun p => (Char.ofNat 10 :: p.1, p.2))
        else if e = 'r' then (parseString r).map (fun p => (Char.ofNat 13 :: p.1, p.2))
        else if e = 't' then (parseString r).map (fun p => (Char.ofNat 9 :: p.1, p.2))
        else if e = 'u' then
          match r with
          | a :: b :: c2 :: d :: r2 =>
            match hexVal a, hexVal b, hexVal c2, hexVal d with
            | some ha, some hb, some hc, some hd =>
              (parseString r2).map
                (fun p => (Char.ofNat (((ha * 16 + hb) * 16 + hc) * 16 + hd) :: p.1, p.2))
            | _, _, _, _ => none
          | _ => none
        else none
    else (parseString rest).map (fun p => (c :: p.1, p.2))

/-- The escape branch of `parseString` (the body of its `\\` case), named
so that equations about `parseString` stay readable. -/
def parseEsc : List Char → Option (List Char × List Char)
  | [] => none
  | e :: r =>
    if e.toNat = 34 then (parseString r).map (fun p => ('"' :: p.1, p.2))
    else if e.toNat = 92 then (parseString r).map (fun p => ('\\' :: p.1, p.2))
    else if e.toNat = 47 then (parseString r).map (fun p => ('/' :: p.1, p.2))
    else if e = 'b' then (parseString r).map (fun p => (Char.ofNat 8 :: p.1, p.2))
    else if e = 'f' then (parseString r).map (fun p => (Char.ofNat 12 :: p.1, p.2))
    else if e = 'n' then (parseString r).map (fun p => (Char.ofNat 10 :: p.1, p.2))
    else if e = 'r' then (parseString r).map (fun p => (Char.ofNat 13 :: p.1, p.2))
    else if e = 't' then (parseString r).map (fun p => (Char.ofNat 9 :: p.1, p.2))
    else if e = 'u' then
      match r with
      | a :: b :: c2 :: d :: r2 =>
        match hexVal a, hexVal b, hexVal c2, hexVal d with
        | some ha, some hb, some hc, some hd =>
          (parseString r2).map
            (fun p => (Char.ofNat (((ha * 16 + hb) * 16 + hc) * 16 + hd) :: p.1, p.2))
        | _, _, _, _ => none
      | _ => none
    else none

mutual

/-- Fuel-indexed JSON value parser (whitespace-free JSON, as produced by
`serde_json::to_string`; fractional and exponent number forms are outside
the integer-only model). -/
def parseValue : Nat → List Char → Option (Value × List Char)
  | 0, _ => none
  | _ + 1, [] => none
  | fuel + 1, c :: rest =>
    if c = 'n' then
      match rest with
      | 'u' :: 'l' :: 'l' :: r => some (.null, r)
      | _ => none
    else if c = 't' then
      match rest with
      | 'r' :: 'u' :: 'e' :: r => some (.bool true, r)
      | _ => none
    else if c = 'f' then
      match rest with
      | 'a' :: 'l' :: 's' :: 'e' :: r => some (.bool false, r)
      | _ => none
    else if c.toNat = 34 then (parseString rest).map (fun p => (.str p.1, p.2))
    else if c = '[' then
      match rest with
      | [] => none
      | c2 :: r =>
        if c2 = ']' then some (.arr [], r)
        else (parseElems fuel (c2 :: r)).map (fun p => (.arr p.1, p.2))
    else if c = '{' then
      match rest with
      | [] => none
      | c2 :: r =>
        if c2 = '}' then some (.map [], r)
        else (parseMembers fuel (c2 :: r)).map (fun p => (.map p.1, p.2))
    else if c = '-' then (parseNat rest).map (fun p => (.int (-(p.1 : Int)), p.2))
    else if isDigitCh c then (parseNat (c :: rest)).map (fun p => (.int (p.1 : Int), p.2))
    else none

/-- Parse one-or-more comma-separated array elements up to the closing
bracket. -/
def parseElems : Nat → List Char → Option (List Value × List Char)
  | 0, _ => none
  | fuel + 1, cs =>
    (parseValue fuel cs).bind (fun p =>
      match p.2 with
      | ',' :: r2 => (parseElems fuel r2).map (fun q => (p.1 :: q.1, q.2))
      | ']' :: r2 => some ([p.1], r2)
      | _ => none)

/-- Parse one-or-more comma-separated object members up to the closing
brace; JSON object keys always parse as strings. -/
def parseMembers : Nat → List Char → Option (List (Value × Value) × List Char)
  | 0, _ => none
  | fuel + 1, cs =>
    match cs with
    | [] => none
    | c :: rest =>
      if c.toNat = 34 then
        (parseString rest).bind (fun kp =>
          match kp.2 with
          | ':' :: r2 =>
            (parseValue fuel r2).bind (fun vp =>
              match vp.2 with
              | ',' :: r3 =>
                (parseMembers fuel r3).map (fun q => ((Value.str kp.1, vp.1) :: q.1, q.2))
              | '}' :: r3 => some ([(Value.str kp.1, vp.1)], r3)
              | _ => none)
          | _ => none)
      else none

end

/-- Parse a complete JSON document (the whole input must be consumed). -/
def jsonParse (s : List Char) : Option Value :=
  match parseValue (s.length + 1) s with
  | some (v, []) => some v
  | _ => none

/-- Command-line arguments of the tool (the `Args` struct in src/main.rs). -/
structure Args where
  role : String
  role_session_name : Option String
  policy_arn : List String
  policy : Option String
  duration_seconds : Option Int
  tag : List String
  transitive_tag_key : List String
  external_id : Option String
  serial_number : Option String
  token_code : Option String
  source_identity : Option String
  command : List String
deriving DecidableEq

/-- Credential bundle of an STS `AssumeRole` response: every field the SDK
exposes as an `Option`. -/
structure Credentials where
  access_key_id : Option String
  secret_access_key : Option String
  session_token : Option String
  expiration : Option Int
deriving DecidableEq

/-- Trust-service response: the credential bundle is optional. -/
structure StsResponse where
  credentials : Option Credentials
deriving DecidableEq

/-- The assume-role request assembled by `async_main` from the CLI input
(the builder chain `sts.assume_role()...` in src/main.rs). -/
structure AssumeRoleRequest where
  role_arn : String
  role_session_name : String
  policy_arns : List String
  duration_seconds : Option Int
  transitive_tag_keys : List String
  external_id : Option String
  serial_number : Option String
  token_code : Option String
  source_identity : Option String
  tags : List (String × String)
  policy : Option String
deriving DecidableEq

/-- Specification of the child process: executable, arguments, and the
environment overlay added with `Command::env` (inherited variables are not
part of the overlay). -/
structure ChildSpec where
  program : String
  args : List String
  overlay : List (String × String)
deriving DecidableEq

/-- Observable external calls of one invocation, in order. -/
inductive Event where
  | getRole (name : String) : Event
  | stsSend (req : AssumeRoleRequest) : Event
  | printExpiration (msg : String) : Event
  | spawn (spec : ChildSpec) : Event
deriving DecidableEq

/-- The external collaborators of `async_main`, supplied as oracles:
`getRole` is the IAM directory lookup (`Ok none` = response without a role,
`Ok (some none)` = role without an ARN), `openFile`/`yamlParse` model the
file system and the `serde_yaml` front end, `stsSend` the trust service,
`fmtDateTime` the fallible smithy date-time formatter
(`DateTime::fmt` returns a `Result`), `shell` the `SHELL` environment
variable, `parentEnv` the inherited environment (read-only: the source never
mutates its own environment), and `spawnResult`/`waitResult` the child
process. -/
structure World where
  getRole : String → Except String (Option (Option String))
  openFile : String → Except String String
  yamlParse : String → Except String Value
  stsSend : AssumeRoleRequest → Except String StsResponse
  fmtDateTime : Int → Except String String
  shell : Option String
  parentEnv : String → Option String
  spawnResult : ChildSpec → Except String Unit
  waitResult : Except String Int
  now : Int

/-- Rust's `str::starts_with("arn:")` on the role string, character by
character. -/
def startsWithArn (s : String) : Bool :=
  match s.data with
  | 'a' :: 'r' :: 'n' :: ':' :: _ => true
  | _ => false

/-- Split a character list at the first `'='`, as Rust's
`str::split_once('=')`. -/
def splitOnceChar : List Char → Option (List Char × List Char)
  | [] => none
  | c :: cs =>
    if c = '=' then some ([], cs)
    else (splitOnceChar cs).map (fun p => (c :: p.1, p.2))

/-- `str::split_once('=')` on strings. -/
def splitOnce (s : String) : Option (String × String) :=
  (splitOnceChar s.data).map (fun p => (String.mk p.1, String.mk p.2))

/-- The tag loop of `async_main`: each raw tag is split on the first `=`;
a tag without a separator aborts with `illegal tag` naming the string. -/
def parseTags : List String → Except String (List (String × String))
  | [] => .ok []
  | t :: ts =>
    match splitOnce t with
    | some (k, v) => (parseTags ts).map (fun rest => (k, v) :: rest)
    | none => .error ("illegal tag: `" ++ t ++ "`")

/-- Role resolution: a role starting with `arn:` is used directly, any
other string is resolved through one IAM `get_role` call (recorded in the
trace), failing if the response has no role or the role has no ARN. -/
def resolveRole (args : Args) (w : World) : Except String String × List Event :=
  if startsWithArn args.role then (.ok args.role, [])
  else
    (match w.getRole args.role with
     | .error e => .error e
     | .ok none => .error "role is not provided"
     | .ok (some none) => .error "arn is not provided"
     | .ok (some (some arn)) => .ok arn,
     [.getRole args.role])

/-- Session name defaulting: `assume-role@<unix-timestamp>` when absent. -/
def sessionName (args : Args) (w : World) : String :=
  args.role_session_name.getD ("assume-role@" ++ toString w.now)

/-- Inline-policy loading: open the file, parse it as YAML into a value
tree, and re-serialize the tree to JSON text. -/
def loadPolicy (args : Args) (w : World) : Except String (Option String) :=
  match args.policy with
  | none => .ok none
  | some path =>
    match w.openFile path with
    | .error _ => .error ("failed to open `" ++ path ++ "`")
    | .ok contents =>
      match w.yamlParse contents with
      | .error _ => .error ("failed to read `" ++ path ++ "`")
      | .ok value =>
        match serVal value with
        | none => .error "malformed policy"
        | some s => .ok (some (String.mk s))

/-- Assembly of the request from the CLI input, in source order: the base
builder chain, then the tag loop, then the inline policy. -/
def buildRequest (args : Args) (w : World) (roleArn : String) :
    Except String AssumeRoleRequest :=
  match parseTags args.tag with
  | .error e => .error e
  | .ok tags =>
    match loadPolicy args w with
    | .error e => .error e
    | .ok pol =>
      .ok { role_arn := roleArn
            role_session_name := sessionName args w
            policy_arns := args.policy_arn
            duration_seconds := args.duration_seconds
            transitive_tag_keys := args.transitive_tag_key
            external_id := args.external_id
            serial_number := args.serial_number
            token_code := args.token_code
            source_identity := args.source_identity
            tags := tags
            policy := pol }

/-- Credential extraction from the trust-service response: the bundle, its
access key id and its secret access key are mandatory, each absence failing
with an error naming the missing field. -/
def extractCreds (resp : StsResponse) :
    Except String (String × String × Option String × Option Int) :=
  match resp.credentials with
  | none => .error "no credentials provided"
  | some c =>
    match c.access_key_id with
    | none => .error "no access_key_id provided"
    | some ak =>
      match c.secret_access_key with
      | none => .error "no secret_access_key provided"
      | some sk => .ok (ak, sk, c.session_token, c.expiration)

/-- Expiration reporting: when a timestamp is present it is formatted with
the smithy `DateTime` format (whose failure is propagated by `?` in the
source) and printed. -/
def reportExpiration (w : World) (exp : Option Int) : Except String (List Event) :=
  match exp with
  | none => .ok []
  | some t =>
    match w.fmtDateTime t with
    | .error e => .error e
    | .ok s => .ok [.printExpiration ("Credentials will expire at " ++ s)]

/-- Child-command determination: an empty trailing command falls back to
the `SHELL` environment variable (its absence is fatal); otherwise the first
element is the executable and the rest are arguments.  The `[]` branch under
a nonempty guard models the `iter.next().unwrap()` panic and is unreachable. -/
def determineCommand (args : Args) (w : World) : Except String (String × List String) :=
  if args.command.isEmpty then
    match w.shell with
    | none => .error "failed to get environment variable `SHELL`"
    | some sh => .ok (sh, [])
  else
    match args.command with
    | [] => .error "unwrap on empty command"
    | x :: xs => .ok (x, xs)

/-- Environment overlay for the child: the key id and secret key
unconditionally, the session token only when present. -/
def mkSpec (prog : String) (as : List String) (ak sk : String)
    (tok : Option String) : ChildSpec :=
  { program := prog
    args := as
    overlay :=
      [("AWS_ACCESS_KEY_ID", ak), ("AWS_SECRET_ACCESS_KEY", sk)] ++
        (match tok with
         | some t => [("AWS_SESSION_TOKEN", t)]
         | none => []) }

/-- Effective environment of the spawned child: the overlay entries shadow
the inherited parent environment, which is otherwise passed through. -/
def childEnv (w : World) (spec : ChildSpec) (v : String) : Option String :=
  match spec.overlay.lookup v with
  | some x => some x
  | none => w.parentEnv v

/-- Tail of `async_main` after credential extraction: report the
expiration, determine the child command, spawn it and wait.  The child's
exit status (`waitResult`'s payload) is discarded: the source ends with
`cmd.spawn()?.wait().await?;` followed by `Ok(())`. -/
def launch (args : Args) (w : World) (ak sk : String) (tok : Option String)
    (exp : Option Int) : Except String Unit × List Event :=
  match reportExpiration w exp with
  | .error e => (.error e, [])
  | .ok pr =>
    match determineCommand args w with
    | .error e => (.error e, pr)
    | .ok (prog, pArgs) =>
      let spec := mkSpec prog pArgs ak sk tok
      match w.spawnResult spec with
      | .error e => (.error e, pr ++ [.spawn spec])
      | .ok _ =>
        match w.waitResult with
        | .error e => (.error e, pr ++ [.spawn spec])
        | .ok _status => (.ok (), pr ++ [.spawn spec])

/-- The whole of `async_main` from src/main.rs, returning the tool's
result (`main` exits 0 on `ok`, nonzero on `error`) and the trace of
external calls. -/
def async_main (args : Args) (w : World) : Except String Unit × List Event :=
  match resolveRole args w with
  | (.error e, tr) => (.error e, tr)
  | (.ok roleArn, tr) =>
    match buildRequest args w roleArn with
    | .error e => (.error e, tr)
    | .ok req =>
      match w.stsSend req with
      | .error e => (.error e, tr ++ [.stsSend req])
      | .ok resp =>
        match extractCreds resp with
        | .error e => (.error e, tr ++ [.stsSend req])
        | .ok (ak, sk, tok, exp) =>
          let p := launch args w ak sk tok exp
          (p.1, (tr ++ [.stsSend req]) ++ p.2)

/-- Process exit code of `fn main() -> Result<()>`: 0 on `Ok`, 1 on `Err`. -/
def toolExitCode : Except String Unit → Int
  | .ok _ => 0
  | .error _ => 1

/-- Is the event a child-process spawn. -/
def isSpawn : Event → Bool
  | .spawn _ => true
  | _ => false

/-- Is the event a directory (IAM `get_role`) lookup. -/
def isGetRole : Event → Bool
  | .getRole _ => true
  | _ => false

/-- Is the event a trust-service (STS) call. -/
def isSts : Event → Bool
  | .stsSend _ => true
  | _ => false

/-- A complete credential bundle, for concrete runs. -/
def okCreds : Credentials :=
  { access_key_id := some "AK", secret_access_key := some "SK"
    session_token := some "TOK", expiration := some 100 }

/-- A world in which every collaborator succeeds and the child process
exits with status 5. -/
def wBase : World :=
  { getRole := fun _ => .ok (some (some "arn:resolved"))
    openFile := fun _ => .ok "doc"
    yamlParse := fun _ => .error "unused"
    stsSend := fun _ => .ok { credentials := some okCreds }
    fmtDateTime := fun _ => .ok "2026-01-01T00:00:00Z"
    shell := some "/bin/sh"
    parentEnv := fun _ => none
    spawnResult := fun _ => .ok ()
    waitResult := .ok 5
    now := 0 }

/-- A canonical-identifier invocation running `echo hi`. -/
def argsBase : Args :=
  { role := "arn:r", role_session_name := some "s", policy_arn := []
    policy := none, duration_seconds := none, tag := []
    transitive_tag_key := [], external_id := none, serial_number := none
    token_code := none, source_identity := none, command := ["echo", "hi"] }

/-- A bare-name role together with a malformed tag. -/
def argsTagBad : Args := { argsBase with role := "myrole", tag := ["bad-tag"] }

/-- A world whose date-time formatter fails. -/
def wFmtFail : World := { wBase with fmtDateTime := fun _ => .error "failed to format" }

/-- An invocation with no trailing command. -/
def argsNoCmd : Args := { argsBase with command := [] }

/-- A world with `SHELL` unset. -/
def wNoShell : World := { wBase with shell := none }

/-- A world whose directory lookup returns a response without a role. -/
def wRoleNone : World := { wBase with getRole := fun _ => .ok none }

/-- A world whose trust service responds without a credential bundle. -/
def wNoCreds : World := { wBase with stsSend := fun _ => .ok { credentials := none } }

/-- The value tree parsed from the YAML document `1: a` — a mapping with
an integer key. -/
def vIntKey : Value := .map [(.int 1, .str ['a'])]

/-- The JSON text serde_json produces for `vIntKey`: the integer key is
rendered as a quoted string. -/
def sIntKey : List Char := ['{', '"', '1', '"', ':', '"', 'a', '"', '}']

/-- A string-keyed value tree exercising nesting, escapes and negative
numbers. -/
def vRound : Value :=
  .map [(.str ['a'],
         .arr [.int (-12), .null, .bool true, .str ['x', '\n', Char.ofNat 1]])]

/-- The JSON text for `vRound`: `{"a":[-12,null,true,"x\n\u0001"]}`. -/
def sRound : List Char :=
  ['{', '"', 'a', '"', ':', '[', '-', '1', '2', ',', 'n', 'u', 'l', 'l', ',',
   't', 'r', 'u', 'e', ',', '"', 'x', '\\', 'n', '\\', 'u', '0', '0', '0', '1',
   '"', ']', '}']

theorem resolveRole_arn (args : Args) (w : World)
    (h : startsWithArn args.role = true) :
    resolveRole args w = (.ok args.role, []) := by
  simp [resolveRole, h]

theorem resolveRole_name_trace (args : Args) (w : World)
    (h : startsWithArn args.role = false) :
    (resolveRole args w).2 = [Event.getRole args.role] := by
  simp [resolveRole, h]

theorem resolveRole_name_none (args : Args) (w : World)
    (h : startsWithArn args.role = false) (hg : w.getRole args.role = .ok none) :
    resolveRole args w = (.error "role is not provided", [Event.getRole args.role]) := by
  simp [resolveRole, h, hg]

theorem resolveRole_name_noarn (args : Args) (w : World)
    (h : startsWithArn args.role = false)
    (hg : w.getRole args.role = .ok (some none)) :
    resolveRole args w = (.error "arn is not provided", [Event.getRole args.role]) := by
  simp [resolveRole, h, hg]

theorem resolveRole_trace_events (args : Args) (w : World) :
    ((resolveRole args w).2).any isSpawn = false ∧
    ((resolveRole args w).2).any isSts = false ∧
    ((resolveRole args w).2).countP isGetRole =
      (if startsWithArn args.role then 0 else 1) := by
  unfold resolveRole
  by_cases h : startsWithArn args.role <;>
    simp [h, isSpawn, isSts, isGetRole, List.countP_cons]

theorem reportExpiration_shape (w : World) (exp : Option Int) (pr : List Event)
    (h : reportExpiration w exp = .ok pr) :
    pr = [] ∨ ∃ m, pr = [Event.printExpiration m] := by
  cases exp with
  | none =>
    simp [reportExpiration] at h
    exact Or.inl h
  | some t =>
    cases hf : w.fmtDateTime t with
    | error e => simp [reportExpiration, hf] at h
    | ok s =>
      simp [reportExpiration, hf] at h
      exact Or.inr ⟨_, h.symm⟩

theorem reportExpiration_events (w : World) (exp : Option Int) (pr : List Event)
    (h : reportExpiration w exp = .ok pr) :
    pr.any isSpawn = false ∧ pr.any isSts = false ∧ pr.countP isGetRole = 0 := by
  rcases reportExpiration_shape w exp pr h with h1 | ⟨m, h1⟩ <;>
    subst h1 <;> simp [isSpawn, isSts, isGetRole]

theorem buildRequest_role (args : Args) (w : World) (r : String)
    (req : AssumeRoleRequest) (h : buildRequest args w r = .ok req) :
    req.role_arn = r := by
  unfold buildRequest at h
  cases ht : parseTags args.tag with
  | error e => rw [ht] at h; cases h
  | ok tg =>
    rw [ht] at h
    cases hp : loadPolicy args w with
    | error e => rw [hp] at h; cases h
    | ok pol =>
      rw [hp] at h
      cases h
      rfl

theorem buildRequest_tags_err (args : Args) (w : World) (r : String) (e : String)
    (h : parseTags args.tag = .error e) : buildRequest args w r = .error e := by
  simp [buildRequest, h]

theorem buildRequest_policy_err (args : Args) (w : World) (r : String)
    (tg : List (String × String)) (e : String)
    (ht : parseTags args.tag = .ok tg) (hp : loadPolicy args w = .error e) :
    buildRequest args w r = .error e := by
  simp [buildRequest, ht, hp]

theorem parseTags_err (ts : List String) (hbad : ∃ t, t ∈ ts ∧ splitOnce t = none) :
    ∃ t2, t2 ∈ ts ∧ splitOnce t2 = none ∧
      parseTags ts = .error ("illegal tag: `" ++ t2 ++ "`") := by
  induction ts with
  | nil => rcases hbad with ⟨t, ht, _⟩; cases ht
  | cons t ts ih =>
    cases hs : splitOnce t with
    | none => exact ⟨t, List.mem_cons_self t ts, hs, by simp [parseTags, hs]⟩
    | some kv =>
      rcases hbad with ⟨t0, ht0, hs0⟩
      rcases List.mem_cons.mp ht0 with rfl | ht0m
      · rw [hs] at hs0; cases hs0
      · rcases ih ⟨t0, ht0m, hs0⟩ with ⟨t2, h2m, h2s, h2e⟩
        refine ⟨t2, List.mem_cons_of_mem _ h2m, h2s, ?_⟩
        simp [parseTags, hs, h2e, Except.map]

theorem splitOnceChar_append (a b : List Char) (h : '=' ∉ a) :
    splitOnceChar (a ++ '=' :: b) = some (a, b) := by
  induction a with
  | nil => simp [splitOnceChar]
  | cons c cs ih =>
    have hc : c ≠ '=' := fun hh => h (hh ▸ List.mem_cons_self c cs)
    have hm : '=' ∉ cs := fun hh => h (List.mem_cons_of_mem c hh)
    simp [splitOnceChar, hc, ih hm]

theorem splitOnceChar_none (s : List Char) (h : '=' ∉ s) :
    splitOnceChar s = none := by
  induction s with
  | nil => rfl
  | cons c cs ih =>
    have hc : c ≠ '=' := fun hh => h (hh ▸ List.mem_cons_self c cs)
    have hm : '=' ∉ cs := fun hh => h (List.mem_cons_of_mem c hh)
    simp [splitOnceChar, hc, ih hm]

theorem async_resolve_err (args : Args) (w : World) (e : String) (tr : List Event)
    (h : resolveRole args w = (.error e, tr)) :
    async_main args w = (.error e, tr) := by
  simp [async_main, h]

theorem launch_det (args : Args) (w : World) (ak sk : String)
    (tok : Option String) (exp : Option Int) (pr : List Event)
    (prog : String) (pArgs : List String)
    (hrep : reportExpiration w exp = .ok pr)
    (hdet : determineCommand args w = .ok (prog, pArgs)) :
    (launch args w ak sk tok exp).2 =
      pr ++ [Event.spawn (mkSpec prog pArgs ak sk tok)] := by
  cases hsp : w.spawnResult (mkSpec prog pArgs ak sk tok) with
  | error e => simp [launch, hrep, hdet, hsp]
  | ok u =>
    cases hw : w.waitResult with
    | error e => simp [launch, hrep, hdet, hsp, hw]
    | ok status => simp [launch, hrep, hdet, hsp, hw]

theorem launch_trace (args : Args) (w : World) (ak sk : String)
    (tok : Option String) (exp : Option Int) :
    ((launch args w ak sk tok exp).2).countP isGetRole = 0 ∧
    ((launch args w ak sk tok exp).2).any isSts = false ∧
    (∀ spec, Event.spawn spec ∈ (launch args w ak sk tok exp).2 →
      ∃ prog pas, spec = mkSpec prog pas ak sk tok) := by
  cases hrep : reportExpiration w exp with
  | error e =>
    have heq : (launch args w ak sk tok exp).2 = [] := by simp [launch, hrep]
    rw [heq]
    exact ⟨rfl, rfl, fun spec hm => absurd hm (by simp)⟩
  | ok pr =>
    have hne := reportExpiration_events w exp pr hrep
    have hsh := reportExpiration_shape w exp pr hrep
    have hprspawn : ∀ spec, Event.spawn spec ∉ pr := by
      intro spec hm
      rcases hsh with rfl | ⟨m, rfl⟩
      · cases hm
      · rcases List.mem_singleton.mp hm with h
        cases h
    cases hdet : determineCommand args w with
    | error e =>
      have heq : (launch args w ak sk tok exp).2 = pr := by simp [launch, hrep, hdet]
      rw [heq]
      exact ⟨hne.2.2, hne.2.1, fun spec hm => absurd hm (hprspawn spec)⟩
    | ok pa =>
      rcases pa with ⟨prog, pArgs⟩
      have heq := launch_det args w ak sk tok exp pr prog pArgs hrep hdet
      rw [heq]
      refine ⟨?_, ?_, ?_⟩
      · simp [List.countP_append, hne.2.2, isGetRole]
      · simp [List.any_append, hne.2.1, isSts]
      · intro spec hm
        rcases List.mem_append.mp hm with hm1 | hm2
        · exact absurd hm1 (hprspawn spec)
        · rcases List.mem_singleton.mp hm2 with h
          injection h with h2
          exact ⟨prog, pArgs, h2⟩

theorem launch_ok (args : Args) (w : World) (ak sk : String)
    (tok : Option String) (exp : Option Int) (status : Int)
    (hspawn : ∀ s, w.spawnResult s = .ok ())
    (hwait : w.waitResult = .ok status)
    (hs : ((launch args w ak sk tok exp).2).any isSpawn = true) :
    (launch args w ak sk tok exp).1 = .ok () := by
  cases hrep : reportExpiration w exp with
  | error e =>
    have heq : (launch args w ak sk tok exp).2 = [] := by simp [launch, hrep]
    rw [heq] at hs
    cases hs
  | ok pr =>
    have hne := reportExpiration_events w exp pr hrep
    cases hdet : determineCommand args w with
    | error e =>
      have heq : (launch args w ak sk tok exp).2 = pr := by simp [launch, hrep, hdet]
      rw [heq] at hs
      rw [hne.1] at hs
      cases hs
    | ok pa =>
      rcases pa with ⟨prog, pArgs⟩
      simp [launch, hrep, hdet, hspawn, hwait]

theorem async_final (args : Args) (w : World) (roleArn : String)
    (req : AssumeRoleRequest) (resp : StsResponse) (tr : List Event)
    (ak sk : String) (tok : Option String) (exp : Option Int)
    (hres : resolveRole args w = (.ok roleArn, tr))
    (hb : buildRequest args w roleArn = .ok req)
    (hsend : w.stsSend req = .ok resp)
    (hex : extractCreds resp = .ok (ak, sk, tok, exp)) :
    async_main args w =
      ((launch args w ak sk tok exp).1,
       (tr ++ [Event.stsSend req]) ++ (launch args w ak sk tok exp).2) := by
  simp [async_main, hres, hb, hsend, hex]

theorem async_trace_shape (args : Args) (w : World) :
    ∃ rest, (async_main args w).2 = (resolveRole args w).2 ++ rest ∧
      rest.countP isGetRole = 0 ∧
      (∀ req, Event.stsSend req ∈ rest →
        ∃ r, (resolveRole args w).1 = .ok r ∧ buildRequest args w r = .ok req) ∧
      (∀ spec, Event.spawn spec ∈ rest →
        ∃ prog pas ak sk tok, spec = mkSpec prog pas ak sk tok) := by
  rcases hres : resolveRole args w with ⟨res, tr⟩
  cases res with
  | error e =>
    refine ⟨[], by simp [async_main, hres], by simp, ?_, ?_⟩ <;>
      · intro x hx
        cases hx
  | ok roleArn =>
    cases hb : buildRequest args w roleArn with
    | error e =>
      refine ⟨[], by simp [async_main, hres, hb], by simp, ?_, ?_⟩ <;>
        · intro x hx
          cases hx
    | ok req =>
      have hmem1 : ∀ req2 : AssumeRoleRequest,
          Event.stsSend req2 ∈ [Event.stsSend req] →
          ∃ r, (Except.ok roleArn : Except String String) = .ok r ∧
            buildRequest args w r = .ok req2 := by
        intro req2 hm
        rcases List.mem_singleton.mp hm with h
        injection h with h2
        exact ⟨roleArn, rfl, h2 ▸ hb⟩
      cases hsend : w.stsSend req with
      | error e =>
        refine ⟨[.stsSend req], by simp [async_main, hres, hb, hsend],
          by simp [isGetRole], by simpa using hmem1, ?_⟩
        intro spec hm
        rcases List.mem_singleton.mp hm with h
        cases h
      | ok resp =>
        cases hex : extractCreds resp with
        | error e =>
          refine ⟨[.stsSend req], by simp [async_main, hres, hb, hsend, hex],
            by simp [isGetRole], by simpa using hmem1, ?_⟩
          intro spec hm
          rcases List.mem_singleton.mp hm with h
          cases h
        | ok quad =>
          rcases quad with ⟨ak, sk, tok, exp⟩
          have hlt := launch_trace args w ak sk tok exp
          refine ⟨Event.stsSend req :: (launch args w ak sk tok exp).2,
            ?_, ?_, ?_, ?_⟩
          · have := async_final args w roleArn req resp tr ak sk tok exp hres hb hsend hex
            rw [this]
            simp
          · simp [List.countP_cons, isGetRole, hlt.1]
          · intro req2 hm
            rcases List.mem_cons.mp hm with h | h
            · injection h with h2
              exact ⟨roleArn, by simp [hres], h2 ▸ hb⟩
            · exfalso
              have : ((launch args w ak sk tok exp).2).any isSts = true :=
                List.any_eq_true.mpr ⟨_, h, rfl⟩
              rw [hlt.2.1] at this
              cases this
          · intro spec hm
            rcases List.mem_cons.mp hm with h | h
            · cases h
            · rcases hlt.2.2 spec h with ⟨prog, pas, hsp⟩
              exact ⟨prog, pas, ak, sk, tok, hsp⟩

theorem async_build_fail (args : Args) (w : World)
    (h : ∀ r, ∃ e, buildRequest args w r = .error e) :
    (async_main args w).2.any isSts = false ∧
    (async_main args w).2.any isSpawn = false ∧
    ∃ e, (async_main args w).1 = .error e := by
  have hev := resolveRole_trace_events args w
  rcases hres : resolveRole args w with ⟨res, tr⟩
  rw [hres] at hev
  cases res with
  | error e =>
    rw [async_resolve_err args w e tr hres]
    exact ⟨hev.2.1, hev.1, e, rfl⟩
  | ok roleArn =>
    rcases h roleArn with ⟨e, hb⟩
    have : async_main args w = (.error e, tr) := by
      simp [async_main, hres, hb]
    rw [this]
    exact ⟨hev.2.1, hev.1, e, rfl⟩

theorem async_build_fail_msg (args : Args) (w : World) (e : String)
    (h : ∀ r, buildRequest args w r = .error e)
    (hok : ∃ r0 tr0, resolveRole args w = (.ok r0, tr0)) :
    (async_main args w).1 = .error e := by
  rcases hok with ⟨r0, tr0, hres⟩
  simp [async_main, hres, h r0]

theorem async_extract_fail (args : Args) (w : World)
    (h : ∀ r resp, w.stsSend r = .ok resp → ∃ e, extractCreds resp = .error e) :
    (async_main args w).2.any isSpawn = false ∧
    ((async_main args w).2.any isSts = true → ∃ e, (async_main args w).1 = .error e) := by
  have hev := resolveRole_trace_events args w
  rcases hres : resolveRole args w with ⟨res, tr⟩
  rw [hres] at hev
  cases res with
  | error e =>
    rw [async_resolve_err args w e tr hres]
    exact ⟨hev.1, fun _ => ⟨e, rfl⟩⟩
  | ok roleArn =>
    cases hb : buildRequest args w roleArn with
    | error e =>
      have heq : async_main args w = (.error e, tr) := by
        simp [async_main, hres, hb]
      rw [heq]
      exact ⟨hev.1, fun _ => ⟨e, rfl⟩⟩
    | ok req =>
      cases hsend : w.stsSend req with
      | error e =>
        have heq : async_main args w = (.error e, tr ++ [Event.stsSend req]) := by
          simp [async_main, hres, hb, hsend]
        rw [heq]
        refine ⟨?_, fun _ => ⟨e, rfl⟩⟩
        simp [List.any_append, hev.1, isSpawn]
      | ok resp =>
        rcases h req resp hsend with ⟨e, hex⟩
        have heq : async_main args w = (.error e, tr ++ [Event.stsSend req]) := by
          simp [async_main, hres, hb, hsend, hex]
        rw [heq]
        refine ⟨?_, fun _ => ⟨e, rfl⟩⟩
        simp [List.any_append, hev.1, isSpawn]

theorem resolveRole_trace_cases (args : Args) (w : World) :
    (resolveRole args w).2 = [] ∨
    (resolveRole args w).2 = [Event.getRole args.role] := by
  by_cases h : startsWithArn args.role
  · exact Or.inl (by rw [resolveRole_arn args w h])
  · exact Or.inr (resolveRole_name_trace args w (by simpa using h))

/-- C1 counterexample: in a run in which every collaborator succeeds and
the child process exits with status 5, `async_main` still returns `Ok(())`
(the source discards the exit status of `wait`), so the tool's exit code is
0, not the child's 5 — refuting the claim that the tool's exit status
equals the child's. -/
theorem C1_counterexample :
    wBase.waitResult = .ok 5 ∧
    (async_main argsBase wBase).2.any isSpawn = true ∧
    (async_main argsBase wBase).1 = .ok () ∧
    toolExitCode (async_main argsBase wBase).1 ≠ 5 :=
  ⟨rfl, rfl, rfl, by decide⟩

/-- C1 (amended): whenever the child process is successfully spawned and
waited on, the tool's own result is `Ok(())` — exit status 0 — regardless
of the child's exit status, which the code discards. -/
theorem C1_exit_zero_after_wait (args : Args) (w : World) (status : Int)
    (hspawn : ∀ s, w.spawnResult s = .ok ())
    (hwait : w.waitResult = .ok status)
    (hs : (async_main args w).2.any isSpawn = true) :
    (async_main args w).1 = .ok () := by
  have hev := resolveRole_trace_events args w
  rcases hres : resolveRole args w with ⟨res, tr⟩
  simp only [hres] at hev
  cases res with
  | error e =>
    rw [async_resolve_err args w e tr hres] at hs
    simp only at hs
    rw [hev.1] at hs
    cases hs
  | ok roleArn =>
    cases hb : buildRequest args w roleArn with
    | error e =>
      have heq : async_main args w = (.error e, tr) := by
        simp [async_main, hres, hb]
      rw [heq] at hs
      simp only at hs
      rw [hev.1] at hs
      cases hs
    | ok req =>
      cases hsend : w.stsSend req with
      | error e =>
        have heq : async_main args w = (.error e, tr ++ [Event.stsSend req]) := by
          simp [async_main, hres, hb, hsend]
        rw [heq] at hs
        simp only [List.any_append, hev.1] at hs
        simp [isSpawn] at hs
      | ok resp =>
        cases hex : extractCreds resp with
        | error e =>
          have heq : async_main args w = (.error e, tr ++ [Event.stsSend req]) := by
            simp [async_main, hres, hb, hsend, hex]
          rw [heq] at hs
          simp only [List.any_append, hev.1] at hs
          simp [isSpawn] at hs
        | ok quad =>
          rcases quad with ⟨ak, sk, tok, exp⟩
          have hfin := async_final args w roleArn req resp tr ak sk tok exp hres hb hsend hex
          rw [hfin] at hs ⊢
          simp only [List.any_append, hev.1] at hs
          simp only [List.any_cons, List.any_nil, isSpawn] at hs
          simp only [Bool.false_or, Bool.or_false] at hs
          exact launch_ok args w ak sk tok exp status hspawn hwait hs

/-- C1 witness: the amended claim at a concrete run whose child exits 5. -/
theorem C1_witness :
    (∀ s, wBase.spawnResult s = .ok ()) ∧ wBase.waitResult = .ok 5 ∧
    (async_main argsBase wBase).2.any isSpawn = true ∧
    (async_main argsBase wBase).1 = .ok () :=
  ⟨fun _ => rfl, rfl, rfl,
    C1_exit_zero_after_wait argsBase wBase 5 (fun _ => rfl) rfl rfl⟩

/-- C2 counterexample: with a bare-name role and a malformed tag, the run
performs a directory lookup (network I/O) and only afterwards fails with
the tag validation error — refuting the claim that validation errors
precede all network I/O. -/
theorem C2_counterexample :
    (async_main argsTagBad wBase).2.any isGetRole = true ∧
    (async_main argsTagBad wBase).1 = .error "illegal tag: `bad-tag`" :=
  ⟨rfl, rfl⟩

/-- C2 (amended): a tag or policy validation failure aborts the run before
any trust-service call and before any spawn (though the directory lookup,
when the role is a bare name, happens before validation). -/
theorem C2_validation_before_trust_call (args : Args) (w : World)
    (h : (∃ e, parseTags args.tag = .error e) ∨ (∃ e, loadPolicy args w = .error e)) :
    (async_main args w).2.any isSts = false ∧
    (async_main args w).2.any isSpawn = false ∧
    ∃ e, (async_main args w).1 = .error e := by
  apply async_build_fail
  intro r
  cases ht : parseTags args.tag with
  | error e => exact ⟨e, buildRequest_tags_err args w r e ht⟩
  | ok tg =>
    rcases h with ⟨e, he⟩ | ⟨e, he⟩
    · rw [ht] at he
      cases he
    · exact ⟨e, buildRequest_policy_err args w r tg e ht he⟩

/-- C2 witness: the amended claim at the concrete malformed-tag run. -/
theorem C2_witness :
    parseTags argsTagBad.tag = .error "illegal tag: `bad-tag`" ∧
    (async_main argsTagBad wBase).2.any isSts = false ∧
    (async_main argsTagBad wBase).2.any isSpawn = false ∧
    ∃ e, (async_main argsTagBad wBase).1 = .error e :=
  ⟨rfl, C2_validation_before_trust_call argsTagBad wBase (Or.inl ⟨_, rfl⟩)⟩

/-- C3: a role beginning with `arn:` is used directly (no directory lookup,
and every trust-service request carries it verbatim); any other role string
triggers exactly one directory lookup, and a lookup response without a role
or without an ARN aborts with a resolution error before any trust-service
call. -/
theorem C3_role_reference (args : Args) (w : World) :
    (startsWithArn args.role = true →
      (async_main args w).2.countP isGetRole = 0 ∧
      (∀ req, Event.stsSend req ∈ (async_main args w).2 → req.role_arn = args.role)) ∧
    (startsWithArn args.role = false →
      (async_main args w).2.countP isGetRole = 1 ∧
      (w.getRole args.role = .ok none →
        (async_main args w).1 = .error "role is not provided" ∧
        (async_main args w).2.any isSts = false) ∧
      (w.getRole args.role = .ok (some none) →
        (async_main args w).1 = .error "arn is not provided" ∧
        (async_main args w).2.any isSts = false)) := by
  rcases async_trace_shape args w with ⟨rest, htr, hcount, hsts, _⟩
  constructor
  · intro h
    have hres := resolveRole_arn args w h
    constructor
    · rw [htr, hres]
      simpa using hcount
    · intro req hm
      rw [htr, hres] at hm
      simp only [List.nil_append] at hm
      rcases hsts req hm with ⟨r, hr, hbr⟩
      rw [hres] at hr
      simp only at hr
      cases hr
      exact buildRequest_role args w _ req hbr
  · intro h
    have htr2 := resolveRole_name_trace args w h
    refine ⟨?_, ?_, ?_⟩
    · rw [htr, htr2]
      simp [List.countP_cons, isGetRole, hcount]
    · intro hg
      have hres := resolveRole_name_none args w h hg
      rw [async_resolve_err args w _ _ hres]
      exact ⟨rfl, by simp [isSts]⟩
    · intro hg
      have hres := resolveRole_name_noarn args w h hg
      rw [async_resolve_err args w _ _ hres]
      exact ⟨rfl, by simp [isSts]⟩

/-- C3 witness: the bare-name branch at a concrete run whose lookup
returns no role. -/
theorem C3_witness :
    startsWithArn argsTagBad.role = false ∧
    (async_main argsTagBad wRoleNone).2.countP isGetRole = 1 ∧
    (async_main argsTagBad wRoleNone).1 = .error "role is not provided" ∧
    (async_main argsTagBad wRoleNone).2.any isSts = false := by
  refine ⟨rfl, ((C3_role_reference argsTagBad wRoleNone).2 rfl).1, ?_⟩
  exact ((C3_role_reference argsTagBad wRoleNone).2 rfl).2.1 rfl

/-- C4: tag strings split at the first `=` (key before, value after, so
`a=b=c` gives key `a`, value `b=c`); a tag without `=` makes the run fail —
naming the offending string, when role resolution succeeded — and no
trust-service request is issued. -/
theorem C4_tag_splitting :
    (∀ a b : List Char, '=' ∉ a → splitOnceChar (a ++ '=' :: b) = some (a, b)) ∧
    (∀ s : List Char, '=' ∉ s → splitOnceChar s = none) ∧
    splitOnce "a=b=c" = some ("a", "b=c") ∧
    (∀ t k v ts, splitOnce t = some (k, v) →
      parseTags (t :: ts) = (parseTags ts).map (fun r => (k, v) :: r)) ∧
    (∀ args w t, t ∈ args.tag → splitOnce t = none →
      (async_main args w).2.any isSts = false ∧
      ∃ t2, t2 ∈ args.tag ∧ splitOnce t2 = none ∧
        ((∃ r0 tr0, resolveRole args w = (.ok r0, tr0)) →
          (async_main args w).1 = .error ("illegal tag: `" ++ t2 ++ "`"))) := by
  refine ⟨splitOnceChar_append, splitOnceChar_none, by decide, ?_, ?_⟩
  · intro t k v ts hs
    simp [parseTags, hs]
  · intro args w t hm hs
    rcases parseTags_err args.tag ⟨t, hm, hs⟩ with ⟨t2, h2m, h2s, h2e⟩
    have hbf : ∀ r, buildRequest args w r = .error ("illegal tag: `" ++ t2 ++ "`") :=
      fun r => buildRequest_tags_err args w r _ h2e
    refine ⟨(async_build_fail args w (fun r => ⟨_, hbf r⟩)).1, t2, h2m, h2s, ?_⟩
    intro hok
    exact async_build_fail_msg args w _ hbf hok

/-- C4 witness: the failure half of the claim at the concrete run with tag
list `["bad-tag"]`. -/
theorem C4_witness :
    ("bad-tag" ∈ argsTagBad.tag ∧ splitOnce "bad-tag" = none) ∧
    ((async_main argsTagBad wBase).2.any isSts = false ∧
      ∃ t2, t2 ∈ argsTagBad.tag ∧ splitOnce t2 = none ∧
        ((∃ r0 tr0, resolveRole argsTagBad wBase = (.ok r0, tr0)) →
          (async_main argsTagBad wBase).1 = .error ("illegal tag: `" ++ t2 ++ "`"))) :=
  ⟨⟨by decide, by decide⟩,
   C4_tag_splitting.2.2.2.2 argsTagBad wBase "bad-tag" (by decide) (by decide)⟩

/-- C5: a response without a credential bundle, or a bundle missing the
access key id or the secret access key, is a fatal error naming the missing
field and no child is spawned; the optional session token and expiration
are passed through, and an absent expiration never fails. -/
theorem C5_missing_credentials :
    (∀ resp : StsResponse, resp.credentials = none →
      extractCreds resp = .error "no credentials provided") ∧
    (∀ (resp : StsResponse) (c : Credentials), resp.credentials = some c →
      c.access_key_id = none → extractCreds resp = .error "no access_key_id provided") ∧
    (∀ (resp : StsResponse) (c : Credentials) (ak : String), resp.credentials = some c →
      c.access_key_id = some ak → c.secret_access_key = none →
      extractCreds resp = .error "no secret_access_key provided") ∧
    (∀ (resp : StsResponse) (c : Credentials) (ak sk : String), resp.credentials = some c →
      c.access_key_id = some ak → c.secret_access_key = some sk →
      extractCreds resp = .ok (ak, sk, c.session_token, c.expiration)) ∧
    (∀ w : World, reportExpiration w none = .ok []) ∧
    (∀ args w, (∀ r resp, w.stsSend r = .ok resp → ∃ e, extractCreds resp = .error e) →
      (async_main args w).2.any isSpawn = false ∧
      ((async_main args w).2.any isSts = true → ∃ e, (async_main args w).1 = .error e)) := by
  refine ⟨?_, ?_, ?_, ?_, fun _ => rfl, async_extract_fail⟩
  · intro resp h
    simp [extractCreds, h]
  · intro resp c h hak
    simp [extractCreds, h, hak]
  · intro resp c ak h hak hsk
    simp [extractCreds, h, hak, hsk]
  · intro resp c ak sk h hak hsk
    simp [extractCreds, h, hak, hsk]

/-- C5 witness: a concrete run whose trust service answers without a
credential bundle spawns nothing. -/
theorem C5_witness :
    extractCreds { credentials := none } = .error "no credentials provided" ∧
    (async_main argsBase wNoCreds).2.any isSpawn = false := by
  refine ⟨C5_missing_credentials.1 { credentials := none } rfl, ?_⟩
  refine (C5_missing_credentials.2.2.2.2.2 argsBase wNoCreds ?_).1
  intro r resp h
  cases h
  exact ⟨_, rfl⟩

/-- C6: the child's environment overlay sets the key id and secret key
unconditionally, sets the session token exactly when present (falling back
to the inherited value otherwise), leaves every other variable at its
inherited value (the parent environment `w.parentEnv` is a read-only field
of the world and is never written), and every spawned child's spec is built
by `mkSpec`. -/
theorem C6_env_overlay :
    (∀ prog pas ak sk tok (w : World),
      childEnv w (mkSpec prog pas ak sk tok) "AWS_ACCESS_KEY_ID" = some ak) ∧
    (∀ prog pas ak sk tok (w : World),
      childEnv w (mkSpec prog pas ak sk tok) "AWS_SECRET_ACCESS_KEY" = some sk) ∧
    (∀ prog pas ak sk t (w : World),
      childEnv w (mkSpec prog pas ak sk (some t)) "AWS_SESSION_TOKEN" = some t) ∧
    (∀ prog pas ak sk (w : World),
      childEnv w (mkSpec prog pas ak sk none) "AWS_SESSION_TOKEN" =
        w.parentEnv "AWS_SESSION_TOKEN") ∧
    (∀ prog pas ak sk tok (w : World) v, v ≠ "AWS_ACCESS_KEY_ID" →
      v ≠ "AWS_SECRET_ACCESS_KEY" → v ≠ "AWS_SESSION_TOKEN" →
      childEnv w (mkSpec prog pas ak sk tok) v = w.parentEnv v) ∧
    (∀ args w spec, Event.spawn spec ∈ (async_main args w).2 →
      ∃ prog pas ak sk tok, spec = mkSpec prog pas ak sk tok) := by
  refine ⟨?_, ?_, ?_, ?_, ?_, ?_⟩
  · intro prog pas ak sk tok w
    cases tok <;> simp +decide [childEnv, mkSpec, List.lookup]
  · intro prog pas ak sk tok w
    cases tok <;> simp +decide [childEnv, mkSpec, List.lookup]
  · intro prog pas ak sk t w
    simp +decide [childEnv, mkSpec, List.lookup]
  · intro prog pas ak sk w
    simp +decide [childEnv, mkSpec, List.lookup]
  · intro prog pas ak sk tok w v h1 h2 h3
    have hb1 : (v == "AWS_ACCESS_KEY_ID") = false := beq_eq_false_iff_ne.mpr h1
    have hb2 : (v == "AWS_SECRET_ACCESS_KEY") = false := beq_eq_false_iff_ne.mpr h2
    have hb3 : (v == "AWS_SESSION_TOKEN") = false := beq_eq_false_iff_ne.mpr h3
    cases tok <;> simp [childEnv, mkSpec, List.lookup, hb1, hb2, hb3]
  · intro args w spec hm
    rcases async_trace_shape args w with ⟨rest, htr, _, _, hspawn⟩
    rw [htr] at hm
    rcases List.mem_append.mp hm with hm1 | hm2
    · rcases resolveRole_trace_cases args w with hc | hc <;> rw [hc] at hm1
      · cases hm1
      · rcases List.mem_singleton.mp hm1 with h
        cases h
    · exact hspawn spec hm2

/-- C6 witness: the overlay facts at a concrete spec and world. -/
theorem C6_witness :
    childEnv wBase (mkSpec "/bin/sh" [] "AK" "SK" (some "TOK")) "AWS_ACCESS_KEY_ID" =
      some "AK" ∧
    childEnv wBase (mkSpec "/bin/sh" [] "AK" "SK" (some "TOK")) "AWS_SESSION_TOKEN" =
      some "TOK" ∧
    childEnv wBase (mkSpec "/bin/sh" [] "AK" "SK" (some "TOK")) "PATH" =
      wBase.parentEnv "PATH" :=
  ⟨C6_env_overlay.1 "/bin/sh" [] "AK" "SK" (some "TOK") wBase,
   C6_env_overlay.2.2.1 "/bin/sh" [] "AK" "SK" "TOK" wBase,
   C6_env_overlay.2.2.2.2.1 "/bin/sh" [] "AK" "SK" (some "TOK") wBase "PATH"
     (by decide) (by decide) (by decide)⟩

/-- C7 counterexample: a credential bundle carries an expiration timestamp
and the date-time formatter fails; the invocation aborts with that error
and no child is spawned — refuting the claim that reporting (including
formatting) never causes the invocation to fail. -/
theorem C7_counterexample :
    okCreds.expiration = some 100 ∧
    (async_main argsBase wFmtFail).1 = .error "failed to format" ∧
    (async_main argsBase wFmtFail).2.any isSpawn = false :=
  ⟨rfl, rfl, rfl⟩

/-- C7 (amended): when formatting succeeds, the expiration report is purely
informational — the run with an expiration equals the run without one
except for one leading `printExpiration` event (emitted before any
child-process event), with the same result and the same child; a formatting
failure, however, aborts the invocation. -/
theorem C7_report_informational (args : Args) (w : World) (ak sk : String)
    (tok : Option String) (t : Int) (s : String)
    (hfmt : w.fmtDateTime t = .ok s) :
    launch args w ak sk tok (some t) =
      ((launch args w ak sk tok none).1,
       Event.printExpiration ("Credentials will expire at " ++ s) ::
         (launch args w ak sk tok none).2) := by
  have h1 : reportExpiration w (some t) =
      .ok [Event.printExpiration ("Credentials will expire at " ++ s)] := by
    simp [reportExpiration, hfmt]
  have h0 : reportExpiration w none = .ok [] := rfl
  unfold launch
  rw [h1, h0]
  cases hdet : determineCommand args w with
  | error e => simp
  | ok pa =>
    rcases pa with ⟨prog, pArgs⟩
    cases hsp : w.spawnResult (mkSpec prog pArgs ak sk tok) with
    | error e => simp [hsp]
    | ok u =>
      cases hw : w.waitResult with
      | error e => simp [hsp, hw]
      | ok st => simp [hsp, hw]

/-- C7 witness: the amended claim at a concrete formatting success. -/
theorem C7_witness :
    wBase.fmtDateTime 100 = .ok "2026-01-01T00:00:00Z" ∧
    launch argsBase wBase "AK" "SK" (some "TOK") (some 100) =
      ((launch argsBase wBase "AK" "SK" (some "TOK") none).1,
       Event.printExpiration ("Credentials will expire at " ++ "2026-01-01T00:00:00Z") ::
         (launch argsBase wBase "AK" "SK" (some "TOK") none).2) :=
  ⟨rfl, C7_report_informational argsBase wBase "AK" "SK" (some "TOK") 100
    "2026-01-01T00:00:00Z" rfl⟩

/-- C8: with an empty trailing command the child executable is taken from
the `SHELL` environment variable — when it is set, the command resolves to
the shell with no arguments and the launch stage spawns exactly one child
whose program is that shell; when it is unset, the launch stage fails with
the configuration error and, pipeline-wide, no spawn is ever attempted —
even in runs whose trust-service call already succeeded. -/
theorem C8_shell_fallback :
    (∀ args (w : World) sh, args.command = [] → w.shell = some sh →
      determineCommand args w = .ok (sh, [])) ∧
    (∀ args w ak sk tok exp pr sh, args.command = [] → w.shell = some sh →
      reportExpiration w exp = .ok pr →
      (launch args w ak sk tok exp).2 =
        pr ++ [Event.spawn (mkSpec sh [] ak sk tok)]) ∧
    (∀ args w ak sk tok exp pr, args.command = [] → w.shell = none →
      reportExpiration w exp = .ok pr →
      (launch args w ak sk tok exp).1 =
        .error "failed to get environment variable `SHELL`" ∧
      (launch args w ak sk tok exp).2.any isSpawn = false) ∧
    (∀ args w, args.command = [] → w.shell = none →
      (async_main args w).2.any isSpawn = false) := by
  have hdet : ∀ args (w : World), args.command = [] → w.shell = none →
      determineCommand args w = .error "failed to get environment variable `SHELL`" := by
    intro args w hc hsh
    simp [determineCommand, hc, hsh]
  have hdetSh : ∀ args (w : World) sh, args.command = [] → w.shell = some sh →
      determineCommand args w = .ok (sh, []) := by
    intro args w sh hc hsh
    simp [determineCommand, hc, hsh]
  refine ⟨hdetSh, ?_, ?_, ?_⟩
  · intro args w ak sk tok exp pr sh hc hsh hrep
    exact launch_det args w ak sk tok exp pr sh [] hrep (hdetSh args w sh hc hsh)
  · intro args w ak sk tok exp pr hc hsh hrep
    have heq : launch args w ak sk tok exp =
        (.error "failed to get environment variable `SHELL`", pr) := by
      simp [launch, hrep, hdet args w hc hsh]
    rw [heq]
    exact ⟨rfl, (reportExpiration_events w exp pr hrep).1⟩
  · intro args w hc hsh
    have hev := resolveRole_trace_events args w
    rcases hres : resolveRole args w with ⟨res, tr⟩
    simp only [hres] at hev
    cases res with
    | error e =>
      rw [async_resolve_err args w e tr hres]
      exact hev.1
    | ok roleArn =>
      cases hb : buildRequest args w roleArn with
      | error e =>
        have heq : async_main args w = (.error e, tr) := by
          simp [async_main, hres, hb]
        rw [heq]
        exact hev.1
      | ok req =>
        cases hsend : w.stsSend req with
        | error e =>
          have heq : async_main args w = (.error e, tr ++ [Event.stsSend req]) := by
            simp [async_main, hres, hb, hsend]
          rw [heq]
          simp [List.any_append, hev.1, isSpawn]
        | ok resp =>
          cases hex : extractCreds resp with
          | error e =>
            have heq : async_main args w = (.error e, tr ++ [Event.stsSend req]) := by
              simp [async_main, hres, hb, hsend, hex]
            rw [heq]
            simp [List.any_append, hev.1, isSpawn]
          | ok quad =>
            rcases quad with ⟨ak, sk, tok, exp⟩
            have hfin :=
              async_final args w roleArn req resp tr ak sk tok exp hres hb hsend hex
            rw [hfin]
            have hl : ((launch args w ak sk tok exp).2).any isSpawn = false := by
              cases hrep : reportExpiration w exp with
              | error e =>
                have heq2 : (launch args w ak sk tok exp).2 = [] := by
                  simp [launch, hrep]
                rw [heq2]
                rfl
              | ok pr =>
                have heq2 : (launch args w ak sk tok exp).2 = pr := by
                  simp [launch, hrep, hdet args w hc hsh]
                rw [heq2]
                exact (reportExpiration_events w exp pr hrep).1
            simp [List.any_append, hev.1, isSpawn, hl]

/-- C8 witness: with `SHELL` set to `/bin/sh` and no command, the child
command resolves to the shell and the launch trace spawns it; with `SHELL`
unset, the trust-service call succeeded (an STS event is in the trace) yet
the result is the configuration error and no spawn occurs. -/
theorem C8_witness :
    argsNoCmd.command = [] ∧ wBase.shell = some "/bin/sh" ∧
    determineCommand argsNoCmd wBase = .ok ("/bin/sh", []) ∧
    (launch argsNoCmd wBase "AK" "SK" (some "TOK") none).2 =
      [] ++ [Event.spawn (mkSpec "/bin/sh" [] "AK" "SK" (some "TOK"))] ∧
    wNoShell.shell = none ∧
    (async_main argsNoCmd wNoShell).2.any isSts = true ∧
    (async_main argsNoCmd wNoShell).1 =
      .error "failed to get environment variable `SHELL`" ∧
    (async_main argsNoCmd wNoShell).2.any isSpawn = false :=
  ⟨rfl, rfl, C8_shell_fallback.1 argsNoCmd wBase "/bin/sh" rfl rfl,
   C8_shell_fallback.2.1 argsNoCmd wBase "AK" "SK" (some "TOK") none []
     "/bin/sh" rfl rfl rfl,
   rfl, rfl, rfl, C8_shell_fallback.2.2.2 argsNoCmd wNoShell rfl rfl⟩

/-- C10: with a nonempty trailing command the child-spec construction
cannot hit the `unwrap` branch: the first element always exists and becomes
the executable, the rest the arguments. -/
theorem C10_nonempty_command_safe (args : Args) (w : World)
    (h : args.command ≠ []) :
    ∃ x xs, args.command = x :: xs ∧ determineCommand args w = .ok (x, xs) := by
  cases hc : args.command with
  | nil => exact absurd hc h
  | cons x xs =>
    refine ⟨x, xs, rfl, ?_⟩
    simp [determineCommand, hc]

/-- C10 witness: the concrete two-element command. -/
theorem C10_witness :
    argsBase.command ≠ [] ∧
    ∃ x xs, argsBase.command = x :: xs ∧
      determineCommand argsBase wBase = .ok (x, xs) :=
  ⟨by decide, C10_nonempty_command_safe argsBase wBase (by decide)⟩

theorem isDigitCh_le (c : Char) (h : isDigitCh c = true) :
    48 ≤ c.toNat ∧ c.toNat ≤ 57 := by
  simpa [isDigitCh, Bool.and_eq_true, decide_eq_true_eq] using h

theorem digitChar_toNat (d : Nat) (h : d < 10) : (digitChar d).toNat = 48 + d := by
  interval_cases d <;> decide

theorem isDigitCh_digitChar (d : Nat) (h : d < 10) :
    isDigitCh (digitChar d) = true := by
  interval_cases d <;> decide

theorem hexVal_hexDigitChar (d : Nat) (h : d < 16) :
    hexVal (hexDigitChar d) = some d := by
  interval_cases d <;> decide

theorem digit_head_route (c : Char) (h : isDigitCh c = true) :
    c ≠ 'n' ∧ c ≠ 't' ∧ c ≠ 'f' ∧ ¬(c.toNat = 34) ∧ c ≠ '[' ∧ c ≠ '{' ∧ c ≠ '-' := by
  obtain ⟨h1, h2⟩ := isDigitCh_le c h
  refine ⟨?_, ?_, ?_, ?_, ?_, ?_, ?_⟩
  · intro he
    rw [he] at h2
    exact absurd h2 (by decide)
  · intro he
    rw [he] at h2
    exact absurd h2 (by decide)
  · intro he
    rw [he] at h2
    exact absurd h2 (by decide)
  · intro he
    omega
  · intro he
    rw [he] at h2
    exact absurd h2 (by decide)
  · intro he
    rw [he] at h2
    exact absurd h2 (by decide)
  · intro he
    rw [he] at h1
    exact absurd h1 (by decide)

theorem head_ne_closer (c : Char)
    (h : c = 'n' ∨ c = 't' ∨ c = 'f' ∨ c = '"' ∨ c = '[' ∨ c = '{' ∨ c = '-' ∨
      isDigitCh c = true) :
    c ≠ ']' ∧ c ≠ '}' := by
  rcases h with rfl | rfl | rfl | rfl | rfl | rfl | rfl | hd
  · exact ⟨by decide, by decide⟩
  · exact ⟨by decide, by decide⟩
  · exact ⟨by decide, by decide⟩
  · exact ⟨by decide, by decide⟩
  · exact ⟨by decide, by decide⟩
  · exact ⟨by decide, by decide⟩
  · exact ⟨by decide, by decide⟩
  · refine ⟨fun he => ?_, fun he => ?_⟩ <;> rw [he] at hd <;>
      exact absurd hd (by decide)

theorem char_eq_of_toNat (c : Char) (n : Nat) (h : c.toNat = n) :
    c = Char.ofNat n := by
  rw [← h, Char.ofNat_toNat]

theorem parseString_cons (c : Char) (t : List Char) :
    parseString (c :: t) =
      if c.toNat = 34 then some ([], t)
      else if c.toNat = 92 then parseEsc t
      else (parseString t).map (fun p => (c :: p.1, p.2)) := by
  rw [parseString.eq_def]
  rfl

theorem parseString_escChar (c : Char) (t : List Char) :
    parseString (escChar c ++ t) =
      (parseString t).map (fun p => (c :: p.1, p.2)) := by
  unfold escChar
  by_cases h1 : c.toNat = 34
  · rw [if_pos h1]
    have hc : c = '"' := char_eq_of_toNat c 34 h1
    subst hc
    rw [parseString.eq_def]
    rfl
  rw [if_neg h1]
  by_cases h2 : c.toNat = 92
  · rw [if_pos h2]
    have hc : c = '\\' := char_eq_of_toNat c 92 h2
    subst hc
    rw [parseString.eq_def]
    rfl
  rw [if_neg h2]
  by_cases h3 : c.toNat = 8
  · rw [if_pos h3, char_eq_of_toNat c 8 h3, parseString.eq_def]
    rfl
  rw [if_neg h3]
  by_cases h4 : c.toNat = 9
  · rw [if_pos h4, char_eq_of_toNat c 9 h4, parseString.eq_def]
    rfl
  rw [if_neg h4]
  by_cases h5 : c.toNat = 10
  · rw [if_pos h5, char_eq_of_toNat c 10 h5, parseString.eq_def]
    rfl
  rw [if_neg h5]
  by_cases h6 : c.toNat = 12
  · rw [if_pos h6, char_eq_of_toNat c 12 h6, parseString.eq_def]
    rfl
  rw [if_neg h6]
  by_cases h7 : c.toNat = 13
  · rw [if_pos h7, char_eq_of_toNat c 13 h7, parseString.eq_def]
    rfl
  rw [if_neg h7]
  by_cases h8 : c.toNat < 32
  · rw [if_pos h8]
    have hdiv : c.toNat / 16 < 16 := by omega
    have hmod : c.toNat % 16 < 16 := by omega
    rw [List.cons_append, parseString_cons,
      if_neg (by decide : ¬(('\\' : Char).toNat = 34)),
      if_pos (by decide : ('\\' : Char).toNat = 92)]
    show (match hexVal '0', hexVal '0', hexVal (hexDigitChar (c.toNat / 16)),
            hexVal (hexDigitChar (c.toNat % 16)) with
          | some ha, some hb, some hc, some hd =>
            (parseString t).map
              (fun p : List Char × List Char =>
                (Char.ofNat (((ha * 16 + hb) * 16 + hc) * 16 + hd) :: p.1, p.2))
          | _, _, _, _ => none) = _
    rw [hexVal_hexDigitChar _ hdiv, hexVal_hexDigitChar _ hmod]
    show (parseString t).map
        (fun p : List Char × List Char =>
          (Char.ofNat (((0 * 16 + 0) * 16 + c.toNat / 16) * 16 + c.toNat % 16) ::
            p.1, p.2)) = _
    have harith : ((0 * 16 + 0) * 16 + c.toNat / 16) * 16 + c.toNat % 16 = c.toNat := by
      omega
    rw [harith, Char.ofNat_toNat]
  · rw [if_neg h8, List.cons_append, List.nil_append, parseString_cons,
      if_neg h1, if_neg h2]

theorem parseString_escape (s rest : List Char) :
    parseString (escape s ++ '"' :: rest) = some (s, rest) := by
  induction s with
  | nil =>
    show parseString ([] ++ '"' :: rest) = some ([], rest)
    rw [List.nil_append, parseString_cons, if_pos (by decide)]
  | cons c cs ih =>
    rw [escape, List.append_assoc, parseString_escChar, ih]
    rfl

theorem takeDigits_append (ds rest : List Char)
    (hd : ∀ c ∈ ds, isDigitCh c = true) (hr : digHead rest = false) :
    takeDigits (ds ++ rest) = (ds, rest) := by
  induction ds with
  | nil =>
    cases rest with
    | nil => rfl
    | cons c cs =>
      have hc : isDigitCh c = false := by simpa [digHead] using hr
      simp [takeDigits, hc]
  | cons c cs ih =>
    have hc := hd c (List.mem_cons_self c cs)
    have hcs : ∀ x ∈ cs, isDigitCh x = true :=
      fun x hx => hd x (List.mem_cons_of_mem c hx)
    simp [takeDigits, hc, ih hcs]

theorem natChars_digits (n : Nat) : ∀ c ∈ natChars n, isDigitCh c = true := by
  intro c hc
  unfold natChars at hc
  by_cases h : n = 0
  · rw [if_pos h] at hc
    rcases List.mem_singleton.mp hc with rfl
    decide
  · rw [if_neg h] at hc
    rcases List.mem_map.mp hc with ⟨d, hd, rfl⟩
    exact isDigitCh_digitChar d
      (Nat.digits_lt_base (by norm_num) (List.mem_reverse.mp hd))

theorem natChars_ne_nil (n : Nat) : natChars n ≠ [] := by
  unfold natChars
  by_cases h : n = 0
  · simp [h]
  · rw [if_neg h]
    intro hc
    have hne : Nat.digits 10 n ≠ [] := Nat.digits_ne_nil_iff_ne_zero.mpr h
    simp only [List.map_eq_nil_iff, List.reverse_eq_nil_iff] at hc
    exact hne hc

theorem foldl_base_reverse (L : List Nat) (acc : Nat) :
    List.foldl (fun a d => a * 10 + d) acc L.reverse =
      acc * 10 ^ L.length + Nat.ofDigits 10 L := by
  induction L generalizing acc with
  | nil => simp [Nat.ofDigits]
  | cons d ds ih =>
    rw [List.reverse_cons, List.foldl_append, ih]
    simp only [List.foldl_cons, List.foldl_nil, List.length_cons, Nat.ofDigits_cons]
    ring

theorem digitsVal_natChars (n : Nat) : digitsVal (natChars n) = n := by
  unfold natChars
  by_cases h : n = 0
  · subst h
    decide
  · rw [if_neg h]
    unfold digitsVal
    rw [List.foldl_map]
    have hext : List.foldl
        (fun (x : Nat) (y : Nat) => x * 10 + ((digitChar y).toNat - 48)) 0
          (Nat.digits 10 n).reverse =
        List.foldl (fun (x : Nat) (y : Nat) => x * 10 + y) 0
          (Nat.digits 10 n).reverse := by
      apply List.foldl_ext
      intro a d hdm
      have hlt := Nat.digits_lt_base (by norm_num) (List.mem_reverse.mp hdm)
      rw [digitChar_toNat d hlt]
      omega
    rw [hext, foldl_base_reverse, Nat.ofDigits_digits]
    omega

theorem parseNat_natChars (n : Nat) (rest : List Char)
    (hr : digHead rest = false) :
    parseNat (natChars n ++ rest) = some (n, rest) := by
  unfold parseNat
  rw [takeDigits_append (natChars n) rest (natChars_digits n) hr]
  cases hnc : natChars n with
  | nil => exact absurd hnc (natChars_ne_nil n)
  | cons c cs =>
    have hdv := digitsVal_natChars n
    rw [hnc] at hdv
    simp [hdv]

theorem serVal_arr_inv (xs : List Value) (s : List Char)
    (h : serVal (.arr xs) = some s) :
    ∃ parts, serList xs = some parts ∧ s = '[' :: (joinComma parts ++ [']']) := by
  simp only [serVal] at h
  cases hl : serList xs with
  | none => rw [hl] at h; cases h
  | some parts => rw [hl] at h; exact ⟨parts, rfl, (Option.some.inj h).symm⟩

theorem serVal_map_inv (es : List (Value × Value)) (s : List Char)
    (h : serVal (.map es) = some s) :
    ∃ parts, serMembers es = some parts ∧ s = '{' :: (joinComma parts ++ ['}']) := by
  simp only [serVal] at h
  cases hl : serMembers es with
  | none => rw [hl] at h; cases h
  | some parts => rw [hl] at h; exact ⟨parts, rfl, (Option.some.inj h).symm⟩

theorem serList_nil_inv (parts : List (List Char))
    (h : serList [] = some parts) : parts = [] := by
  simp only [serList] at h
  exact (Option.some.inj h).symm

theorem serList_cons_inv (x : Value) (xs : List Value) (parts : List (List Char))
    (h : serList (x :: xs) = some parts) :
    ∃ s1 parts2, serVal x = some s1 ∧ serList xs = some parts2 ∧
      parts = s1 :: parts2 := by
  simp only [serList] at h
  cases hx : serVal x with
  | none => rw [hx] at h; cases h
  | some s1 =>
    rw [hx] at h
    cases hl : serList xs with
    | none => rw [hl] at h; cases h
    | some p2 => rw [hl] at h; exact ⟨s1, p2, rfl, rfl, (Option.some.inj h).symm⟩

theorem serMembers_nil_inv (parts : List (List Char))
    (h : serMembers [] = some parts) : parts = [] := by
  simp only [serMembers] at h
  exact (Option.some.inj h).symm

theorem serMembers_cons_inv (k v : Value) (es : List (Value × Value))
    (parts : List (List Char)) (h : serMembers ((k, v) :: es) = some parts) :
    ∃ kc vc parts2, serKey k = some kc ∧ serVal v = some vc ∧
      serMembers es = some parts2 ∧ parts = (kc ++ (':' :: vc)) :: parts2 := by
  simp only [serMembers] at h
  cases hk : serKey k with
  | none => rw [hk] at h; cases h
  | some kc =>
    rw [hk] at h
    cases hv : serVal v with
    | none => rw [hv] at h; cases h
    | some vc =>
      rw [hv] at h
      cases hm : serMembers es with
      | none => rw [hm] at h; cases h
      | some p2 =>
        rw [hm] at h
        exact ⟨kc, vc, p2, rfl, rfl, rfl, (Option.some.inj h).symm⟩

theorem serVal_head (v : Value) (s : List Char) (h : serVal v = some s) :
    ∃ c t, s = c :: t ∧ (c = 'n' ∨ c = 't' ∨ c = 'f' ∨ c = '"' ∨ c = '[' ∨
      c = '{' ∨ c = '-' ∨ isDigitCh c = true) := by
  cases v with
  | null =>
    simp only [serVal] at h
    exact ⟨'n', _, (Option.some.inj h).symm, by tauto⟩
  | bool b =>
    cases b <;> simp only [serVal] at h
    · exact ⟨'f', _, (Option.some.inj h).symm, by tauto⟩
    · exact ⟨'t', _, (Option.some.inj h).symm, by tauto⟩
  | int n =>
    simp only [serVal] at h
    have h2 := Option.some.inj h
    subst h2
    unfold intChars
    by_cases hn : n < 0
    · rw [if_pos hn]
      exact ⟨'-', _, rfl, by tauto⟩
    · rw [if_neg hn]
      cases hnc : natChars n.natAbs with
      | nil => exact absurd hnc (natChars_ne_nil _)
      | cons c cs =>
        have hdig := natChars_digits n.natAbs c (hnc ▸ List.mem_cons_self c cs)
        exact ⟨c, cs, rfl, by tauto⟩
  | str s0 =>
    simp only [serVal, strChars] at h
    exact ⟨'"', _, (Option.some.inj h).symm, by tauto⟩
  | arr xs =>
    rcases serVal_arr_inv xs s h with ⟨parts, _, rfl⟩
    exact ⟨'[', _, rfl, by tauto⟩
  | map es =>
    rcases serVal_map_inv es s h with ⟨parts, _, rfl⟩
    exact ⟨'{', _, rfl, by tauto⟩

theorem serKey_str_inv (k : Value) (kc : List Char) (h : serKey k = some kc)
    (hs : ∃ t, k = Value.str t) : ∃ t, k = Value.str t ∧ kc = strChars t := by
  rcases hs with ⟨t, rfl⟩
  simp only [serKey] at h
  exact ⟨t, rfl, (Option.some.inj h).symm⟩

theorem parseValue_succ (fuel : Nat) (c : Char) (rest : List Char) :
    parseValue (fuel + 1) (c :: rest) =
      (if c = 'n' then
        match rest with
        | 'u' :: 'l' :: 'l' :: r => some (.null, r)
        | _ => none
      else if c = 't' then
        match rest with
        | 'r' :: 'u' :: 'e' :: r => some (.bool true, r)
        | _ => none
      else if c = 'f' then
        match rest with
        | 'a' :: 'l' :: 's' :: 'e' :: r => some (.bool false, r)
        | _ => none
      else if c.toNat = 34 then (parseString rest).map (fun p => (.str p.1, p.2))
      else if c = '[' then
        match rest with
        | [] => none
        | c2 :: r =>
          if c2 = ']' then some (.arr [], r)
          else (parseElems fuel (c2 :: r)).map (fun p => (.arr p.1, p.2))
      else if c = '{' then
        match rest with
        | [] => none
        | c2 :: r =>
          if c2 = '}' then some (.map [], r)
          else (parseMembers fuel (c2 :: r)).map (fun p => (.map p.1, p.2))
      else if c = '-' then (parseNat rest).map (fun p => (.int (-(p.1 : Int)), p.2))
      else if isDigitCh c then
        (parseNat (c :: rest)).map (fun p => (.int (p.1 : Int), p.2))
      else none) := by
  rw [parseValue.eq_def]

theorem parseElems_succ (fuel : Nat) (cs : List Char) :
    parseElems (fuel + 1) cs =
      (parseValue fuel cs).bind (fun p =>
        match p.2 with
        | ',' :: r2 => (parseElems fuel r2).map (fun q => (p.1 :: q.1, q.2))
        | ']' :: r2 => some ([p.1], r2)
        | _ => none) := by
  rw [parseElems.eq_def]

theorem serKey_head (k : Value) (kc : List Char) (h : serKey k = some kc) :
    ∃ t, kc = '"' :: t := by
  cases k with
  | str s => simp only [serKey, strChars] at h; exact ⟨_, (Option.some.inj h).symm⟩
  | int n => simp only [serKey] at h; exact ⟨_, (Option.some.inj h).symm⟩
  | bool b =>
    cases b <;> simp only [serKey] at h <;> exact ⟨_, (Option.some.inj h).symm⟩
  | null => simp only [serKey] at h; exact Option.noConfusion h
  | arr xs => simp only [serKey] at h; exact Option.noConfusion h
  | map es => simp only [serKey] at h; exact Option.noConfusion h

theorem parseMembers_succ (fuel : Nat) (c : Char) (rest : List Char) :
    parseMembers (fuel + 1) (c :: rest) =
      (if c.toNat = 34 then
        (parseString rest).bind (fun kp =>
          match kp.2 with
          | ':' :: r2 =>
            (parseValue fuel r2).bind (fun vp =>
              match vp.2 with
              | ',' :: r3 =>
                (parseMembers fuel r3).map
                  (fun q => ((Value.str kp.1, vp.1) :: q.1, q.2))
              | '}' :: r3 => some ([(Value.str kp.1, vp.1)], r3)
              | _ => none)
          | _ => none)
      else none) := by
  rw [parseMembers.eq_def]

theorem parse_ser_all (fuel : Nat) :
    (∀ v s rest, s.length < fuel → strKeysV v = true → serVal v = some s →
      digHead rest = false → parseValue fuel (s ++ rest) = some (v, rest)) ∧
    (∀ xs parts rest, (joinComma parts).length + 2 ≤ fuel → strKeysL xs = true →
      serList xs = some parts → xs ≠ [] →
      parseElems fuel (joinComma parts ++ ']' :: rest) = some (xs, rest)) ∧
    (∀ es parts rest, (joinComma parts).length + 2 ≤ fuel → strKeysM es = true →
      serMembers es = some parts → es ≠ [] →
      parseMembers fuel (joinComma parts ++ '}' :: rest) = some (es, rest)) := by
  induction fuel with
  | zero =>
    exact ⟨fun v s rest hlen => absurd hlen (by omega),
           fun xs parts rest hlen => absurd hlen (by omega),
           fun es parts rest hlen => absurd hlen (by omega)⟩
  | succ fuel ih =>
    obtain ⟨ihv, ihe, ihm⟩ := ih
    refine ⟨?_, ?_, ?_⟩
    · intro v s rest hlen hkeys hser hdig
      cases v with
      | null =>
        simp only [serVal] at hser
        have h2 := Option.some.inj hser
        subst h2
        simp only [List.cons_append, List.nil_append]
        rw [parseValue_succ]
        rfl
      | bool b =>
        cases b with
        | false =>
          simp only [serVal] at hser
          have h2 := Option.some.inj hser
          subst h2
          simp only [List.cons_append, List.nil_append]
          rw [parseValue_succ]
          rfl
        | true =>
          simp only [serVal] at hser
          have h2 := Option.some.inj hser
          subst h2
          simp only [List.cons_append, List.nil_append]
          rw [parseValue_succ]
          rfl
      | int n =>
        simp only [serVal] at hser
        have h2 := Option.some.inj hser
        subst h2
        by_cases hn : n < 0
        · simp only [intChars, if_pos hn, List.cons_append]
          rw [parseValue_succ,
            if_neg (by decide : ¬(('-' : Char) = 'n')),
            if_neg (by decide : ¬(('-' : Char) = 't')),
            if_neg (by decide : ¬(('-' : Char) = 'f')),
            if_neg (by decide : ¬(('-' : Char).toNat = 34)),
            if_neg (by decide : ¬(('-' : Char) = '[')),
            if_neg (by decide : ¬(('-' : Char) = '{')),
            if_pos rfl]
          rw [parseNat_natChars n.natAbs rest hdig]
          show some (Value.int (-(n.natAbs : Int)), rest) = some (.int n, rest)
          have hni : -((n.natAbs : Int)) = n := by omega
          rw [hni]
        · simp only [intChars, if_neg hn]
          cases hnc : natChars n.natAbs with
          | nil => exact absurd hnc (natChars_ne_nil _)
          | cons c cs =>
            rw [List.cons_append]
            have hd1 := natChars_digits n.natAbs c (hnc ▸ List.mem_cons_self c cs)
            obtain ⟨r1, r2, r3, r4, r5, r6, r7⟩ := digit_head_route c hd1
            rw [parseValue_succ, if_neg r1, if_neg r2, if_neg r3, if_neg r4,
              if_neg r5, if_neg r6, if_neg r7, if_pos hd1]
            have hback : c :: (cs ++ rest) = natChars n.natAbs ++ rest := by
              rw [hnc, List.cons_append]
            rw [hback, parseNat_natChars n.natAbs rest hdig]
            show some (Value.int ((n.natAbs : Int)), rest) = some (.int n, rest)
            have hni : ((n.natAbs : Int)) = n := by omega
            rw [hni]
      | str s0 =>
        simp only [serVal, strChars] at hser
        have h2 := Option.some.inj hser
        subst h2
        simp only [List.cons_append, List.append_assoc, List.singleton_append]
        rw [parseValue_succ,
          if_neg (by decide : ¬(('"' : Char) = 'n')),
          if_neg (by decide : ¬(('"' : Char) = 't')),
          if_neg (by decide : ¬(('"' : Char) = 'f')),
          if_pos (by decide : (('"' : Char).toNat = 34))]
        rw [parseString_escape]
        rfl
      | arr xs =>
        rcases serVal_arr_inv xs s hser with ⟨parts, hl, rfl⟩
        cases xs with
        | nil =>
          have hp := serList_nil_inv parts hl
          subst hp
          simp only [joinComma, List.nil_append, List.cons_append,
            List.singleton_append]
          rw [parseValue_succ,
            if_neg (by decide : ¬(('[' : Char) = 'n')),
            if_neg (by decide : ¬(('[' : Char) = 't')),
            if_neg (by decide : ¬(('[' : Char) = 'f')),
            if_neg (by decide : ¬(('[' : Char).toNat = 34)),
            if_pos rfl]
          rfl
        | cons x xs2 =>
          rcases serList_cons_inv x xs2 parts hl with ⟨s1, parts2, hsx, hsl2, rfl⟩
          rcases serVal_head x s1 hsx with ⟨c0, t1, hs1, hhead⟩
          have hc0 := head_ne_closer c0 hhead
          have hjoin : ∃ t2, joinComma (s1 :: parts2) = c0 :: t2 := by
            cases parts2 with
            | nil => exact ⟨t1, by rw [show joinComma [s1] = s1 from rfl, hs1]⟩
            | cons p ps =>
              refine ⟨t1 ++ (',' :: joinComma (p :: ps)), ?_⟩
              rw [show joinComma (s1 :: p :: ps) =
                    s1 ++ (',' :: joinComma (p :: ps)) from rfl, hs1,
                List.cons_append]
          obtain ⟨t2, hj⟩ := hjoin
          have hkeys2 : strKeysL (x :: xs2) = true := by
            simpa only [strKeysV] using hkeys
          have hlen2 : (joinComma (s1 :: parts2)).length + 2 ≤ fuel := by
            simp only [List.length_cons, List.length_append,
              List.length_singleton] at hlen
            omega
          rw [List.cons_append, List.append_assoc, List.singleton_append]
          rw [hj, List.cons_append]
          rw [parseValue_succ,
            if_neg (by decide : ¬(('[' : Char) = 'n')),
            if_neg (by decide : ¬(('[' : Char) = 't')),
            if_neg (by decide : ¬(('[' : Char) = 'f')),
            if_neg (by decide : ¬(('[' : Char).toNat = 34)),
            if_pos rfl]
          show (if c0 = ']' then some (Value.arr [], t2 ++ ']' :: rest)
                else (parseElems fuel (c0 :: (t2 ++ ']' :: rest))).map
                  (fun p => (Value.arr p.1, p.2))) = some (.arr (x :: xs2), rest)
          rw [if_neg hc0.1]
          have hback : c0 :: (t2 ++ ']' :: rest) =
              joinComma (s1 :: parts2) ++ ']' :: rest := by
            rw [hj, List.cons_append]
          rw [hback]
          rw [ihe (x :: xs2) (s1 :: parts2) rest hlen2 hkeys2 hl (by simp)]
          rfl
      | map es =>
        rcases serVal_map_inv es s hser with ⟨parts, hm, rfl⟩
        cases es with
        | nil =>
          have hp := serMembers_nil_inv parts hm
          subst hp
          simp only [joinComma, List.nil_append, List.cons_append,
            List.singleton_append]
          rw [parseValue_succ,
            if_neg (by decide : ¬(('{' : Char) = 'n')),
            if_neg (by decide : ¬(('{' : Char) = 't')),
            if_neg (by decide : ¬(('{' : Char) = 'f')),
            if_neg (by decide : ¬(('{' : Char).toNat = 34)),
            if_neg (by decide : ¬(('{' : Char) = '[')),
            if_pos rfl]
          rfl
        | cons kv es2 =>
          rcases kv with ⟨k, v0⟩
          rcases serMembers_cons_inv k v0 es2 parts hm with
            ⟨kc, vc, parts2, hk, hv, hm2, rfl⟩
          rcases serKey_head k kc hk with ⟨tk0, htk0⟩
          have hjoin : ∃ t2, joinComma ((kc ++ (':' :: vc)) :: parts2) = '"' :: t2 := by
            cases parts2 with
            | nil =>
              refine ⟨tk0 ++ (':' :: vc), ?_⟩
              rw [show joinComma [kc ++ (':' :: vc)] = kc ++ (':' :: vc) from rfl,
                htk0, List.cons_append]
            | cons p ps =>
              refine ⟨(tk0 ++ (':' :: vc)) ++ (',' :: joinComma (p :: ps)), ?_⟩
              rw [show joinComma ((kc ++ (':' :: vc)) :: p :: ps) =
                    (kc ++ (':' :: vc)) ++ (',' :: joinComma (p :: ps)) from rfl,
                htk0, List.cons_append, List.cons_append]
          obtain ⟨t2, hj⟩ := hjoin
          have hkeys2 : strKeysM ((k, v0) :: es2) = true := by
            simpa only [strKeysV] using hkeys
          have hlen2 : (joinComma ((kc ++ (':' :: vc)) :: parts2)).length + 2 ≤ fuel := by
            simp only [List.length_cons, List.length_append,
              List.length_singleton] at hlen
            omega
          rw [List.cons_append, List.append_assoc, List.singleton_append]
          rw [hj, List.cons_append]
          rw [parseValue_succ,
            if_neg (by decide : ¬(('{' : Char) = 'n')),
            if_neg (by decide : ¬(('{' : Char) = 't')),
            if_neg (by decide : ¬(('{' : Char) = 'f')),
            if_neg (by decide : ¬(('{' : Char).toNat = 34)),
            if_neg (by decide : ¬(('{' : Char) = '[')),
            if_pos rfl]
          show (if ('"' : Char) = '}' then some (Value.map [], t2 ++ '}' :: rest)
                else (parseMembers fuel ('"' :: (t2 ++ '}' :: rest))).map
                  (fun p => (Value.map p.1, p.2))) =
              some (.map ((k, v0) :: es2), rest)
          rw [if_neg (by decide : ¬(('"' : Char) = '}'))]
          have hback : ('"' : Char) :: (t2 ++ '}' :: rest) =
              joinComma ((kc ++ (':' :: vc)) :: parts2) ++ '}' :: rest := by
            rw [hj, List.cons_append]
          rw [hback]
          rw [ihm ((k, v0) :: es2) ((kc ++ (':' :: vc)) :: parts2) rest hlen2
            hkeys2 hm (by simp)]
          rfl
    · intro xs parts rest hlen hkeys hser hne
      cases xs with
      | nil => exact absurd rfl hne
      | cons x xs2 =>
        rcases serList_cons_inv x xs2 parts hser with ⟨s1, parts2, hsx, hsl2, rfl⟩
        simp only [strKeysL, Bool.and_eq_true] at hkeys
        obtain ⟨hkx, hkxs⟩ := hkeys
        cases xs2 with
        | nil =>
          have hp2 := serList_nil_inv parts2 hsl2
          subst hp2
          rw [show joinComma [s1] = s1 from rfl] at hlen ⊢
          rw [parseElems_succ]
          have hlen2 : s1.length < fuel := by omega
          rw [ihv x s1 (']' :: rest) hlen2 hkx hsx rfl]
          rfl
        | cons y ys =>
          rcases serList_cons_inv y ys parts2 hsl2 with ⟨s2, parts3, hsy, hsl3, rfl⟩
          have hj : joinComma (s1 :: s2 :: parts3) =
              s1 ++ (',' :: joinComma (s2 :: parts3)) := rfl
          rw [hj] at hlen ⊢
          simp only [List.length_append, List.length_cons] at hlen
          rw [List.append_assoc, List.cons_append]
          rw [parseElems_succ]
          have hs1len : s1.length < fuel := by omega
          rw [ihv x s1 (',' :: (joinComma (s2 :: parts3) ++ ']' :: rest))
            hs1len hkx hsx rfl]
          show (parseElems fuel (joinComma (s2 :: parts3) ++ ']' :: rest)).map
              (fun q => (x :: q.1, q.2)) = some (x :: y :: ys, rest)
          have hlen3 : (joinComma (s2 :: parts3)).length + 2 ≤ fuel := by omega
          rw [ihe (y :: ys) (s2 :: parts3) rest hlen3 hkxs hsl2 (by simp)]
          rfl
    · intro es parts rest hlen hkeys hser hne
      cases es with
      | nil => exact absurd rfl hne
      | cons kv es2 =>
        rcases kv with ⟨k, v0⟩
        rcases serMembers_cons_inv k v0 es2 parts hser with
          ⟨kc, vc, parts2, hk, hv, hm2, rfl⟩
        simp only [strKeysM, Bool.and_eq_true] at hkeys
        obtain ⟨hkk, hkv, hkes⟩ := hkeys
        have hkstr : ∃ t, k = Value.str t := by
          cases k with
          | str t => exact ⟨t, rfl⟩
          | null => simp at hkk
          | bool b => simp at hkk
          | int n => simp at hkk
          | arr xs => simp at hkk
          | map ms => simp at hkk
        rcases serKey_str_inv k kc hk hkstr with ⟨tk, rfl, rfl⟩
        cases es2 with
        | nil =>
          have hp2 := serMembers_nil_inv parts2 hm2
          subst hp2
          rw [show joinComma [strChars tk ++ (':' :: vc)] =
                strChars tk ++ (':' :: vc) from rfl] at hlen ⊢
          simp only [strChars, List.length_append, List.length_cons,
            List.length_singleton] at hlen
          simp only [strChars, List.cons_append, List.append_assoc,
            List.singleton_append]
          rw [parseMembers_succ, if_pos (by decide : (('"' : Char).toNat = 34))]
          rw [parseString_escape]
          show (parseValue fuel (vc ++ '}' :: rest)).bind (fun vp =>
            match vp.2 with
            | ',' :: r3 =>
              (parseMembers fuel r3).map
                (fun q => ((Value.str tk, vp.1) :: q.1, q.2))
            | '}' :: r3 => some ([(Value.str tk, vp.1)], r3)
            | _ => none) = some ([(Value.str tk, v0)], rest)
          have hvclen : vc.length < fuel := by omega
          rw [ihv v0 vc ('}' :: rest) hvclen hkv hv rfl]
          rfl
        | cons kv2 es3 =>
          rcases kv2 with ⟨k2, v2⟩
          rcases serMembers_cons_inv k2 v2 es3 parts2 hm2 with
            ⟨kc2, vc2, parts3, hk2, hv2, hm3, rfl⟩
          have hj : joinComma ((strChars tk ++ (':' :: vc)) ::
                (kc2 ++ (':' :: vc2)) :: parts3) =
              (strChars tk ++ (':' :: vc)) ++
                (',' :: joinComma ((kc2 ++ (':' :: vc2)) :: parts3)) := rfl
          rw [hj] at hlen ⊢
          simp only [strChars, List.length_append, List.length_cons,
            List.length_singleton] at hlen
          simp only [strChars, List.cons_append, List.append_assoc,
            List.singleton_append]
          rw [parseMembers_succ, if_pos (by decide : (('"' : Char).toNat = 34))]
          rw [parseString_escape]
          show (parseValue fuel (vc ++ ',' ::
              (joinComma ((kc2 ++ (':' :: vc2)) :: parts3) ++ '}' :: rest))).bind
            (fun vp =>
              match vp.2 with
              | ',' :: r3 =>
                (parseMembers fuel r3).map
                  (fun q => ((Value.str tk, vp.1) :: q.1, q.2))
              | '}' :: r3 => some ([(Value.str tk, vp.1)], r3)
              | _ => none) =
            some ((Value.str tk, v0) :: (k2, v2) :: es3, rest)
          have hvclen : vc.length < fuel := by omega
          rw [ihv v0 vc (',' ::
            (joinComma ((kc2 ++ (':' :: vc2)) :: parts3) ++ '}' :: rest))
            hvclen hkv hv rfl]
          show (parseMembers fuel
              (joinComma ((kc2 ++ (':' :: vc2)) :: parts3) ++ '}' :: rest)).map
            (fun q => ((Value.str tk, v0) :: q.1, q.2)) =
            some ((Value.str tk, v0) :: (k2, v2) :: es3, rest)
          have hlen3 : (joinComma ((kc2 ++ (':' :: vc2)) :: parts3)).length + 2 ≤
              fuel := by omega
          rw [ihm ((k2, v2) :: es3) ((kc2 ++ (':' :: vc2)) :: parts3) rest hlen3
            hkes hm2 (by simp)]
          rfl

/-- C9 counterexample: the YAML document `1: a` parses to a mapping with the
integer key `1`; serde_json serializes it (successfully) as `{"1":"a"}`,
quoting the key, and re-parsing that JSON yields a mapping with the string
key `"1"` — a different value tree than the one parsed from the YAML, so
the reformat is not semantics-preserving for non-string mapping keys. -/
theorem C9_counterexample :
    serVal vIntKey = some sIntKey ∧
    jsonParse sIntKey = some (Value.map [(.str ['1'], .str ['a'])]) ∧
    Value.map [(.str ['1'], .str ['a'])] ≠ vIntKey := by
  refine ⟨?_, rfl, ?_⟩
  · simp +decide [vIntKey, sIntKey, serVal, serList, serMembers, serKey,
      joinComma, strChars, escape, escChar, intChars, natChars, digitChar]
  · intro h
    simp [vIntKey] at h

/-- C9 (amended): for every policy value tree whose mapping keys are all
strings, serializing to JSON text and parsing that text back yields the
same tree (the reformat is semantics-preserving and stable under JSON
re-parsing); with a non-string mapping key the round trip changes the key
to a string. -/
theorem C9_json_roundtrip (v : Value) (s : List Char)
    (hkeys : strKeysV v = true) (hser : serVal v = some s) :
    jsonParse s = some v := by
  have h := (parse_ser_all (s.length + 1)).1 v s [] (by omega) hkeys hser rfl
  rw [List.append_nil] at h
  unfold jsonParse
  rw [h]

/-- C9 witness: the amended claim at a concrete nested tree with escapes
and a negative number. -/
theorem C9_witness :
    strKeysV vRound = true ∧ serVal vRound = some sRound ∧
    jsonParse sRound = some vRound := by
  have h1 : strKeysV vRound = true := by
    simp [vRound, strKeysV, strKeysL, strKeysM]
  have h2 : serVal vRound = some sRound := by
    simp +decide [vRound, sRound, serVal, serList, serMembers, serKey,
      joinComma, strChars, escape, escChar, intChars, natChars, digitChar,
      hexDigitChar]
  exact ⟨h1, h2, C9_json_roundtrip vRound sRound h1 h2⟩

end AssumeRole
